import Mathlib

/-!
Verification development for the botbuilder-lg template evaluation engine
(libraries/botbuilder-lg/src/evaluator.ts and the Templates collection).
The evaluator is a tree-walking interpreter over tagged template bodies; it
keeps an explicit evaluation-target stack for cycle detection and per-frame
memoization.  The embedding threads the mutable `evaluationTargetStack`
explicitly: every evaluator function takes the stack and returns the stack,
both on normal return and inside a thrown error (JS exceptions do not roll
back field mutations).  The stack is represented most-recent-first (the head
of the list is the top of the JS array).  Recursion through the template
table is bounded with an explicit fuel parameter; running out of fuel is
reported as a distinguished error that no claim depends on.
-/

namespace LG

/-- JS runtime values flowing through the evaluator: strings, numbers,
booleans, null, undefined, objects (insertion-ordered key/value lists) and
arrays. -/
inductive Value where
  | str (s : String)
  | num (n : Int)
  | boolV (b : Bool)
  | nullV
  | undef
  | obj (fields : List (String × Value))
  | arr (items : List Value)
deriving Repr

/-- Runtime errors thrown by the evaluator.  The source throws `Error`
objects whose messages are built by string concatenation; the embedding keeps
the structure (`wrapped` mirrors `Evaluator.checkExpressionResult` prepending
the child error to the expression context) so theorems can speak about the
reported loop chain. -/
inductive EvalError where
  | msg (s : String)
  | templateNotExist (name : String)
  | templateExist (name : String)
  | loopDetected (chain : List String)
  | wrapped (child : EvalError) (ctx : String)
  | typeError (s : String)
  | outOfFuel
deriving Repr, DecidableEq

/-- A scope layer: key/value data visible to expressions. -/
abbrev Scope := List (String × Value)

/-- Modelled from the spec: customizedMemory.ts is not among the provided
sources.  A layered memory with a global layer and an optional local layer
(section 3 of the spec: own variables over an inherited/global layer). -/
structure CustomizedMemory where
  globalMemory : Scope
  localMemory : Option Scope := none
deriving Repr

/-- Lowercasing over the character list (the byte-position-based
String.toLower does not reduce inside the kernel). -/
def toLowerStr (s : String) : String := String.mk (s.data.map Char.toLower)

/-- Whitespace trim at the start, over the character list. -/
def trimLeftStr (s : String) : String := String.mk (s.data.dropWhile Char.isWhitespace)

/-- Whitespace trim at both ends, over the character list. -/
def trimStr (s : String) : String :=
  String.mk (((s.data.dropWhile Char.isWhitespace).reverse.dropWhile Char.isWhitespace).reverse)

/-- First value bound to a key in a scope layer, or none. -/
def lookupScope (s : Scope) (key : String) : Option Value :=
  match s with
  | [] => none
  | (k, v) :: rest => if k = key then some v else lookupScope rest key

/-- Modelled from the spec: layered lookup of customizedMemory.ts.  A local
binding whose value is defined (not undefined) shadows the global layer. -/
def CustomizedMemory.getValue (m : CustomizedMemory) (key : String) : Value :=
  match m.localMemory with
  | some l =>
    match lookupScope l key with
    | some Value.undef => (lookupScope m.globalMemory key).getD Value.undef
    | some v => v
    | none => (lookupScope m.globalMemory key).getD Value.undef
  | none => (lookupScope m.globalMemory key).getD Value.undef

/-- JS object property write and JS Map.set: overwrite an existing key in
place, otherwise append in insertion order. -/
def jsSet (fields : List (String × Value)) (key : String) (v : Value) : List (String × Value) :=
  match fields with
  | [] => [(key, v)]
  | (k, w) :: rest => if k = key then (k, v) :: rest else (k, w) :: jsSet rest key v

/-- JS string coercion String(v): total, used by the += concatenation in
`visitStructureValue` and by array rendering. -/
def jsStringCoerce : Value → String
  | .str s => s
  | .num n => toString n
  | .boolV b => if b then "true" else "false"
  | .nullV => "null"
  | .undef => "undefined"
  | .obj _ => "[object Object]"
  | .arr items => String.intercalate "," (jsStringCoerceList items)
where
  /-- Coerce each array item; JS Array.prototype.join renders null and
  undefined items as the empty string. -/
  jsStringCoerceList : List Value → List String
  | [] => []
  | .nullV :: rest => "" :: jsStringCoerceList rest
  | .undef :: rest => "" :: jsStringCoerceList rest
  | v :: rest => jsStringCoerce v :: jsStringCoerceList rest

/-- JS v.toString(): throws a TypeError on null and undefined, coerces
otherwise. -/
def jsToString : Value → Except EvalError String
  | .nullV => .error (.typeError "toString of null")
  | .undef => .error (.typeError "toString of undefined")
  | v => .ok (jsStringCoerce v)

/-- JSON.stringify, used when concatenating non-string pieces of an
evaluated template string (braces written with character escapes). -/
def jsonStringify : Value → String
  | .str s => "\"" ++ s ++ "\""
  | .num n => toString n
  | .boolV b => if b then "true" else "false"
  | .nullV => "null"
  | .undef => ""
  | .obj fields => "\x7b" ++ String.intercalate "," (jsonFields fields) ++ "\x7d"
  | .arr items => "[" ++ String.intercalate "," (jsonItems items) ++ "]"
where
  jsonFields : List (String × Value) → List String
  | [] => []
  | (k, v) :: rest => ("\"" ++ k ++ "\":" ++ jsonStringify v) :: jsonFields rest
  jsonItems : List Value → List String
  | [] => []
  | v :: rest => jsonStringify v :: jsonItems rest

/-- JS truthiness: undefined, null, false, 0 and the empty string are falsy. -/
def isFalsy : Value → Bool
  | .undef => true
  | .nullV => true
  | .boolV b => !b
  | .num n => n == 0
  | .str s => s == ""
  | .obj _ => false
  | .arr _ => false

/-- Rendering of a layered memory, used for the evaluation-target id. -/
def renderMemory (m : CustomizedMemory) : String :=
  jsonStringify (Value.obj m.globalMemory) ++
    (match m.localMemory with
     | some l => jsonStringify (Value.obj l)
     | none => "")

/-- A frame of the evaluation-target stack: template name, the scope the
invocation runs against, and the per-frame memoization map from sub-call
fingerprints to already-computed results (evaluationTarget.ts). -/
structure EvaluationTarget where
  templateName : String
  scope : CustomizedMemory
  evaluatedChildren : List (String × Value) := []
deriving Repr

/-- Modelled from the spec: evaluationTarget.ts is not among the provided
sources.  The sub-call fingerprint is the template name plus the scope
identity (section 4.3 step 5 of the spec). -/
def EvaluationTarget.getId (t : EvaluationTarget) : String :=
  t.templateName ++ renderMemory t.scope

/-- The evaluation-target stack, most-recent-first (head is the top of the
JS array, so the JS `reverse()` of the array is this list as written). -/
abbrev Stack := List EvaluationTarget

/-- Expressions handed to the bridged adaptive-expressions evaluator.  The
host expression language is a pluggable dependency (spec non-goals); the
embedding keeps literals, scope lookups, and function calls, the last being
where the evaluator injects template names as functions. -/
inductive Expr where
  | lit (v : Value)
  | var (name : String)
  | call (name : String) (args : List Expr)
deriving Repr

/-- One lexical node of a template string: literal text, an escaped
character, or an embedded expression span. -/
inductive Segment where
  | text (s : String)
  | escape (s : String)
  | exprSeg (e : Expr)
deriving Repr

/-- A normal template string (one candidate line of a normal body). -/
abbrev TemplateString := List Segment

/-- One IF / ELSE IF / ELSE rule: an optional condition (none for ELSE) and
an optional normal body. -/
structure IfBranch where
  cond : Option Expr
  body : Option (List TemplateString)
deriving Repr

/-- The statement heading one switch-case rule. -/
inductive SwitchStat where
  | switchStat (e : Expr)
  | caseStat (e : Expr)
  | defaultStat
deriving Repr

/-- One rule of a switch body; the parser emits the SWITCH statement itself
as the first rule of the list. -/
structure SwitchRule where
  stat : SwitchStat
  body : Option (List TemplateString)
deriving Repr

/-- One item of a key/value structured-body line value: either a pure
expression or a run of lexical nodes folded into one string. -/
inductive StructItem where
  | pureExpr (e : Expr)
  | segs (nodes : List Segment)
deriving Repr

/-- One content line of a structured body: a literal key/value line or a
bare expression line referencing another structured value. -/
inductive StructLine where
  | keyValueLine (key : String) (values : List StructItem)
  | objectLine (e : Expr)
deriving Repr

/-- The tagged template-body variants dispatched by the visitor. -/
inductive TemplateBody where
  | normal (alts : List TemplateString)
  | ifElse (branches : List IfBranch)
  | switchCase (rules : List SwitchRule)
  | structured (typeName : String) (lines : List StructLine)
deriving Repr

/-- Start/end line of a template inside its source file (1-based). -/
structure SourceRange where
  startLine : Nat
  endLine : Nat
deriving Repr

/-- A parsed template: name, declared parameters, tagged body, source
range. -/
structure Template where
  name : String
  parameters : List String
  templateBody : TemplateBody
  sourceRange : SourceRange := ⟨0, 0⟩
deriving Repr

/-- Modelled from the spec: evaluationOptions.ts is not among the provided
sources.  Line-break styles recognized at evaluation time. -/
inductive LGLineBreakStyle where
  | defaultStyle
  | markdown
deriving Repr, DecidableEq

/-- Modelled from the spec: evaluationOptions.ts is not among the provided
sources.  Options recognized at evaluation time: strict mode, null
substitution, line-break style (section 6 of the spec). -/
structure EvaluationOptions where
  strictMode : Option Bool := none
  lineBreakStyle : Option LGLineBreakStyle := none
  nullSubstitution : Option (String → Value) := none

/-- Modelled from the spec: merge of evaluation options, fields of the
receiver win over fields of the argument when defined. -/
def EvaluationOptions.merge (a b : EvaluationOptions) : EvaluationOptions where
  strictMode := a.strictMode <|> b.strictMode
  lineBreakStyle := a.lineBreakStyle <|> b.lineBreakStyle
  nullSubstitution := a.nullSubstitution <|> b.nullSubstitution

/-- The evaluator context: the merged template table, the evaluation
options, and the stubbed randomness source (`choose n` models
Math.floor(Math.random() * n), hence `choose n < n` for n > 0). -/
structure EvalEnv where
  templates : List Template
  lgOptions : EvaluationOptions
  choose : Nat → Nat

/-- The `templateMap` built with lodash keyBy: on duplicate names the last
occurrence wins. -/
def keyByName (ts : List Template) (name : String) : Option Template :=
  ts.foldl (fun acc t => if t.name = name then some t else acc) none

/-- The trailing re-execute marker on template names. -/
def ReExecuteSuffix : String := "!"

/-- Splits a template name into the re-execute flag and the pure name
(stripping the trailing ReExecuteSuffix); an empty name throws. -/
def parseTemplateName (templateName : String) : Except EvalError (Bool × String) :=
  if templateName = "" then .error (.msg "template name is empty.")
  else if templateName.data.getLast? = some '!' then
    .ok (true, String.mk templateName.data.dropLast)
  else .ok (false, templateName)

/-- Modelled from the spec: templateErrors.ts is not among the provided
sources.  Message for a null/undefined expression result. -/
def nullExpressionMsg (exp : String) : String :=
  "Error: " ++ exp ++ " is evaluated to null."

/-- Modelled from the spec: templateErrors.ts is not among the provided
sources.  Contextual message naming the offending expression and
template. -/
def errorExpressionMsg (ctxText : String) (templateName : String) (errPre : String) : String :=
  errPre ++ " Error occurred when evaluating " ++ ctxText ++ " in template " ++ templateName ++ "."

/-- Shallow rendering of an expression, standing in for the original
source text (context.text) that a structural embedding does not carry. -/
def exprText : Expr → String
  | .lit v => jsStringCoerce v
  | .var n => n
  | .call n _ => n ++ "()"

/-- Modelled from the spec: templateExtensions.ts is not among the provided
sources.  Evaluation of one escaped character. -/
def evalEscape (s : String) : String :=
  match s.data with
  | ['\\', 'n'] => "\n"
  | ['\\', 'r'] => "\r"
  | ['\\', 't'] => "\t"
  | ['\\', c] => String.mk [c]
  | _ => s

/-- Doubling of every newline sequence, the model of
result.replace(newLineRegex, dollar1 twice) with newLineRegex matching an
optional carriage return followed by a line feed. -/
def doubleNewlinesAux : List Char → List Char
  | [] => []
  | '\r' :: '\n' :: rest => '\r' :: '\n' :: '\r' :: '\n' :: doubleNewlinesAux rest
  | '\n' :: rest => '\n' :: '\n' :: doubleNewlinesAux rest
  | c :: rest => c :: doubleNewlinesAux rest

/-- String-level wrapper of `doubleNewlinesAux`. -/
def doubleNewlines (s : String) : String := String.mk (doubleNewlinesAux s.data)

/-- Binding of declared parameters to positional arguments: every declared
parameter is written into the fresh scope object, missing arguments bind to
undefined. -/
def bindParameters (parameters : List String) (args : List Value) : Scope :=
  (parameters.enum).foldl (fun acc p => jsSet acc p.2 (args.getD p.1 Value.undef)) []

/-- Evaluator.constructScope: resolves the callee, then with zero arguments
inherits the caller scope unchanged, otherwise binds the declared
parameters positionally as a fresh local layer over the caller global
layer only. -/
def constructScope (env : EvalEnv) (stack : Stack) (inputTemplateName : String) (args : List Value) : Except EvalError CustomizedMemory :=
  match parseTemplateName inputTemplateName with
  | .error e => .error e
  | .ok (_, templateName) =>
    match keyByName env.templates templateName with
    | none => .error (.templateNotExist templateName)
    | some t =>
      match stack with
      | [] => .error (.typeError "reading scope of undefined current target")
      | currentTarget :: _ =>
        if args.length = 0 then .ok currentTarget.scope
        else .ok ⟨currentTarget.scope.globalMemory, some (bindParameters t.parameters args)⟩

/-- The reserved type-tag key of structured results. -/
def LGType : String := "lgType"

/-- Strip of a leading lg. package prefix from a function name inside the
customized evaluator lookup. -/
def stripLgDot (name : String) : String :=
  match name.data with
  | 'l' :: 'g' :: '.' :: restName => String.mk restName
  | _ => name

/-- Concatenation of evaluated template-string pieces: string pieces are
kept as is, non-string pieces are serialized with JSON.stringify. -/
def joinPieces (vs : List Value) : String :=
  String.join (vs.map fun v =>
    match v with
    | .str s => s
    | v => jsonStringify v)

/-- The EXPRESSION terminal of a switch/case statement, none for DEFAULT. -/
def statExpr : SwitchStat → Option Expr
  | .switchStat e => some e
  | .caseStat e => some e
  | .defaultStat => none

/-- Whether a switch-case statement is the DEFAULT statement. -/
def isDefaultStat : SwitchStat → Bool
  | .defaultStat => true
  | _ => false

/-- Merge of a referenced structured object into the partial result: keys
already present in the result are never overwritten. -/
def mergeStructFields (result : List (String × Value)) (fields : List (String × Value)) : List (String × Value) :=
  fields.foldl (fun acc kv => if (lookupScope acc kv.1).isSome then acc else acc ++ [kv]) result

/-- Evaluator.checkExpressionResult as a pure error builder: the child
error (or a null-expression message when the result is falsy without an
error) wrapped with the expression context. -/
def checkExpressionResult (exp : String) (error : Option EvalError) (result : Value) (templateName : String) (ctxText : Option String) (errPre : String) : EvalError :=
  let childError : Option EvalError :=
    match error with
    | some e => some e
    | none => if isFalsy result then some (.msg (nullExpressionMsg exp)) else none
  match childError, ctxText with
  | some c, some ctx => .wrapped c (errorExpressionMsg ctx templateName errPre)
  | some c, none => c
  | none, some ctx => .msg (errorExpressionMsg ctx templateName errPre)
  | none, none => .msg ""

/-- Replacement of escaped pipes over the character list. -/
def replaceEscapedPipeAux : List Char → List Char
  | [] => []
  | '\\' :: '|' :: rest => '|' :: replaceEscapedPipeAux rest
  | c :: rest => c :: replaceEscapedPipeAux rest

/-- Replacement of escaped pipes inside structured-body escape nodes. -/
def replaceEscapedPipe (s : String) : String := String.mk (replaceEscapedPipeAux s.data)

/-- The post-processing step of evaluateTemplate: every newline of a
string result is doubled when the markdown line-break style is
configured. -/
def lineBreakPostProcess (opts : EvaluationOptions) (r : Value) : Value :=
  if opts.lineBreakStyle = some LGLineBreakStyle.markdown then
    match r with
    | .str s => Value.str (doubleNewlines s)
    | r => r
  else r

mutual

/-- Evaluator.evaluateTemplate: resolve the re-execute marker, check
existence, check the call stack for a cycle (the source reverses the live
stack in place while building the loop message), consult the caller frame
memoization, then push a frame, visit the body, record the result in the
caller frame, pop, and double newlines in markdown mode. -/
def evaluateTemplate (fuel : Nat) (env : EvalEnv) (stack : Stack) (inputTemplateName : String) (scope : CustomizedMemory) : Except (EvalError × Stack) (Value × Stack) :=
  match fuel with
  | 0 => .error (.outOfFuel, stack)
  | fuel + 1 =>
    match parseTemplateName inputTemplateName with
    | .error e => .error (e, stack)
    | .ok (reExecute, templateName) =>
      match keyByName env.templates templateName with
      | none => .error (.templateNotExist templateName, stack)
      | some t =>
        if stack.any (fun u => u.templateName = templateName) then
          .error (.loopDetected (stack.map (fun u => u.templateName)), stack.reverse)
        else
          let templateTarget : EvaluationTarget := ⟨templateName, scope, []⟩
          let currentEvulateId := templateTarget.getId
          let cached : Option Value :=
            match stack with
            | previousEvaluateTarget :: _ =>
              if reExecute then none
              else lookupScope previousEvaluateTarget.evaluatedChildren currentEvulateId
            | [] => none
          match cached with
          | some v => .ok (v, stack)
          | none =>
            match visit fuel env (templateTarget :: stack) t.templateBody with
            | .error es => .error es
            | .ok (r, stack1) =>
              let stack2 : Stack :=
                match stack, stack1 with
                | _ :: _, top :: prev :: rest =>
                  top :: ⟨prev.templateName, prev.scope, jsSet prev.evaluatedChildren currentEvulateId r⟩ :: rest
                | _, s => s
              let stack3 := stack2.tail
              .ok (lineBreakPostProcess env.lgOptions r, stack3)

/-- The visitor dispatch on the tagged body variants. -/
def visit (fuel : Nat) (env : EvalEnv) (stack : Stack) (body : TemplateBody) : Except (EvalError × Stack) (Value × Stack) :=
  match fuel with
  | 0 => .error (.outOfFuel, stack)
  | fuel + 1 =>
    match body with
    | .normal alts => visitNormalTemplateBody fuel env stack alts
    | .ifElse branches => visitIfElseBody fuel env stack branches
    | .switchCase rules => visitSwitchCaseBody fuel env stack rules
    | .structured typeName lines => visitStructuredTemplateBody fuel env stack typeName lines

/-- Evaluator.visitNormalTemplateBody: uniformly pick one candidate string
and visit it. -/
def visitNormalTemplateBody (fuel : Nat) (env : EvalEnv) (stack : Stack) (alts : List TemplateString) : Except (EvalError × Stack) (Value × Stack) :=
  match fuel with
  | 0 => .error (.outOfFuel, stack)
  | fuel + 1 =>
    let randomNumber := env.choose alts.length
    match alts.get? randomNumber with
    | none => .error (.typeError "reading normalTemplateString of undefined", stack)
    | some ts => visitNormalTemplateString fuel env stack ts

/-- Evaluator.visitNormalTemplateString: evaluate the segments in order; a
single non-string piece is returned as is, otherwise the pieces are
concatenated into one string. -/
def visitNormalTemplateString (fuel : Nat) (env : EvalEnv) (stack : Stack) (ts : TemplateString) : Except (EvalError × Stack) (Value × Stack) :=
  match fuel with
  | 0 => .error (.outOfFuel, stack)
  | fuel + 1 =>
    match templateStringNodes fuel env stack ts "" with
    | .error es => .error es
    | .ok (result, stack1) =>
      match result with
      | [Value.str s] => .ok (Value.str (joinPieces [Value.str s]), stack1)
      | [v] => .ok (v, stack1)
      | vs => .ok (Value.str (joinPieces vs), stack1)

/-- The segment loop of visitNormalTemplateString: literal text, escaped
characters, and embedded expressions each push one piece. -/
def templateStringNodes (fuel : Nat) (env : EvalEnv) (stack : Stack) (nodes : List Segment) (errPre : String) : Except (EvalError × Stack) (List Value × Stack) :=
  match fuel with
  | 0 => .error (.outOfFuel, stack)
  | fuel + 1 =>
    match nodes with
    | [] => .ok ([], stack)
    | node :: rest =>
      match node with
      | .text s =>
        match templateStringNodes fuel env stack rest errPre with
        | .error es => .error es
        | .ok (vs, stack1) => .ok (Value.str s :: vs, stack1)
      | .escape s =>
        match templateStringNodes fuel env stack rest errPre with
        | .error es => .error es
        | .ok (vs, stack1) => .ok (Value.str (evalEscape s) :: vs, stack1)
      | .exprSeg e =>
        match evalExpression fuel env stack e (some (exprText e)) errPre with
        | .error es => .error es
        | .ok (v, stack1) =>
          match templateStringNodes fuel env stack1 rest errPre with
          | .error es => .error es
          | .ok (vs, stack2) => .ok (v :: vs, stack2)

/-- Evaluator.visitIfElseBody: scan the IF / ELSE IF / ELSE rules. -/
def visitIfElseBody (fuel : Nat) (env : EvalEnv) (stack : Stack) (branches : List IfBranch) : Except (EvalError × Stack) (Value × Stack) :=
  match fuel with
  | 0 => .error (.outOfFuel, stack)
  | fuel + 1 => ifConditionRules fuel env stack branches

/-- The rule loop of visitIfElseBody: the first rule whose condition is
truthy and whose body is present is visited; otherwise undefined. -/
def ifConditionRules (fuel : Nat) (env : EvalEnv) (stack : Stack) (branches : List IfBranch) : Except (EvalError × Stack) (Value × Stack) :=
  match fuel with
  | 0 => .error (.outOfFuel, stack)
  | fuel + 1 =>
    match branches with
    | [] => .ok (Value.undef, stack)
    | b :: rest =>
      match evalCondition fuel env stack b.cond with
      | .error es => .error es
      | .ok (cond, stack1) =>
        match cond, b.body with
        | true, some nb => visitNormalTemplateBody fuel env stack1 nb
        | _, _ => ifConditionRules fuel env stack1 rest

/-- Evaluator.evalCondition: a missing EXPRESSION means ELSE and is true;
otherwise the expression is evaluated in condition position. -/
def evalCondition (fuel : Nat) (env : EvalEnv) (stack : Stack) (cond : Option Expr) : Except (EvalError × Stack) (Bool × Stack) :=
  match fuel with
  | 0 => .error (.outOfFuel, stack)
  | fuel + 1 =>
    match cond with
    | none => .ok (true, stack)
    | some e => evalExpressionInCondition fuel env stack e ("Condition " ++ exprText e ++ ":")

/-- Evaluator.evalExpressionInCondition: in strict mode an error or falsy
result pops the current frame and throws; otherwise it yields false. -/
def evalExpressionInCondition (fuel : Nat) (env : EvalEnv) (stack : Stack) (e : Expr) (errPre : String) : Except (EvalError × Stack) (Bool × Stack) :=
  match fuel with
  | 0 => .error (.outOfFuel, stack)
  | fuel + 1 =>
    match stack with
    | [] => .error (.typeError "reading scope of undefined current target", stack)
    | cur0 :: _ =>
      match evalByAdaptiveExpression fuel env stack cur0.scope e with
      | (stack1, res) =>
        let failed : Bool :=
          match res with
          | .error _ => true
          | .ok v => isFalsy v
        if (env.lgOptions.strictMode.getD false) && failed then
          match stack1 with
          | cur :: rest =>
            let err : Option EvalError := match res with | .error er => some er | .ok _ => none
            let resultV : Value := match res with | .error _ => Value.undef | .ok v => v
            .error (checkExpressionResult (exprText e) err resultV cur.templateName (some (exprText e)) errPre, rest)
          | [] => .error (.typeError "reading templateName of undefined current target", stack1)
        else if failed then .ok (false, stack1)
        else .ok (true, stack1)

/-- Evaluator.evalExpression: an error (or an undefined result in strict
mode) pops the current frame and throws the wrapped error; an undefined
result in lenient mode becomes the string null. -/
def evalExpression (fuel : Nat) (env : EvalEnv) (stack : Stack) (e : Expr) (ctxText : Option String) (errPre : String) : Except (EvalError × Stack) (Value × Stack) :=
  match fuel with
  | 0 => .error (.outOfFuel, stack)
  | fuel + 1 =>
    match stack with
    | [] => .error (.typeError "reading scope of undefined current target", stack)
    | cur0 :: _ =>
      match evalByAdaptiveExpression fuel env stack cur0.scope e with
      | (stack1, .error err) =>
        match stack1 with
        | cur :: rest =>
          .error (checkExpressionResult (exprText e) (some err) Value.undef cur.templateName ctxText errPre, rest)
        | [] => .error (.typeError "reading templateName of undefined current target", stack1)
      | (stack1, .ok v) =>
        match v with
        | .undef =>
          if env.lgOptions.strictMode.getD false then
            match stack1 with
            | cur :: rest =>
              .error (checkExpressionResult (exprText e) none Value.undef cur.templateName ctxText errPre, rest)
            | [] => .error (.typeError "reading templateName of undefined current target", stack1)
          else .ok (Value.str "null", stack1)
        | v => .ok (v, stack1)

/-- The bridged adaptive-expressions evaluation (tryEvaluate together with
the customized evaluator lookup of evaluator.ts): literals, scope lookups
(with null substitution), and calls.  A call first evaluates the argument
expressions; a name resolving to a template (after stripping a leading lg.
package prefix) runs Evaluator.templateEvaluator under the apply wrapper,
which catches thrown errors and returns them as error results; the
template and isTemplate functions are the template-aware functions of the
lookup.  fromFile and ActivityAttachment perform file I/O and attachment
wrapping and are not modelled. -/
def evalByAdaptiveExpression (fuel : Nat) (env : EvalEnv) (stack : Stack) (scope : CustomizedMemory) (e : Expr) : Stack × Except EvalError Value :=
  match fuel with
  | 0 => (stack, .error .outOfFuel)
  | fuel + 1 =>
    match e with
    | .lit v => (stack, .ok v)
    | .var name =>
      match scope.getValue name, env.lgOptions.nullSubstitution with
      | .undef, some f => (stack, .ok (f name))
      | v, _ => (stack, .ok v)
    | .call name args =>
      match evalArgsList fuel env stack scope args with
      | (stack1, .error err) => (stack1, .error err)
      | (stack1, .ok vs) =>
        let name1 := stripLgDot name
        match parseTemplateName name1 with
        | .error err => (stack1, .error err)
        | .ok (_, pureName) =>
          if (keyByName env.templates pureName).isSome then
            match constructScope env stack1 name1 vs with
            | .error err => (stack1, .error err)
            | .ok newScope =>
              match evaluateTemplate fuel env stack1 name1 newScope with
              | .error (err, stack2) => (stack2, .error err)
              | .ok (v, stack2) => (stack2, .ok v)
          else if name1 = "template" then
            match vs with
            | Value.str tName :: restArgs =>
              match constructScope env stack1 tName restArgs with
              | .error err => (stack1, .error err)
              | .ok newScope =>
                match evaluateTemplate fuel env stack1 tName newScope with
                | .error (err, stack2) => (stack2, .error err)
                | .ok (v, stack2) => (stack2, .ok v)
            | _ => (stack1, .error (.msg "invalid template name"))
          else if name1 = "isTemplate" then
            match vs with
            | v0 :: _ =>
              match jsToString v0 with
              | .error err => (stack1, .error err)
              | .ok s => (stack1, .ok (Value.boolV (keyByName env.templates s).isSome))
            | [] => (stack1, .error (.typeError "toString of undefined"))
          else (stack1, .error (.msg ("unknown function " ++ name)))

/-- Evaluation of call arguments in order; the first error stops the
call. -/
def evalArgsList (fuel : Nat) (env : EvalEnv) (stack : Stack) (scope : CustomizedMemory) (args : List Expr) : Stack × Except EvalError (List Value) :=
  match fuel with
  | 0 => (stack, .error .outOfFuel)
  | fuel + 1 =>
    match args with
    | [] => (stack, .ok [])
    | e :: rest =>
      match evalByAdaptiveExpression fuel env stack scope e with
      | (stack1, .error err) => (stack1, .error err)
      | (stack1, .ok v) =>
        match evalArgsList fuel env stack1 scope rest with
        | (stack2, .error err) => (stack2, .error err)
        | (stack2, .ok vs) => (stack2, .ok (v :: vs))

/-- Evaluator.visitSwitchCaseBody: the first rule is the SWITCH statement;
its expression is evaluated once and stringified, then the case rules are
scanned. -/
def visitSwitchCaseBody (fuel : Nat) (env : EvalEnv) (stack : Stack) (rules : List SwitchRule) : Except (EvalError × Stack) (Value × Stack) :=
  match fuel with
  | 0 => .error (.outOfFuel, stack)
  | fuel + 1 =>
    match rules with
    | [] => .error (.typeError "reading switchCaseStat of undefined", stack)
    | switchNode :: _ =>
      match statExpr switchNode.stat with
      | none => .error (.typeError "reading text of undefined EXPRESSION", stack)
      | some swExpr =>
        let switchErrorPre := "Switch " ++ exprText swExpr ++ ": "
        match evalExpression fuel env stack swExpr (some (exprText swExpr)) switchErrorPre with
        | .error es => .error es
        | .ok (v, stack1) =>
          match jsToString v with
          | .error err => .error (err, stack1)
          | .ok switchExprResult =>
            switchCaseRules fuel env stack1 rules 0 rules.length switchExprResult

/-- The rule loop of visitSwitchCaseBody: index 0 (the SWITCH statement) is
skipped; a DEFAULT statement is honored only at the last index; otherwise
each case expression is stringified and compared for exact string
equality. -/
def switchCaseRules (fuel : Nat) (env : EvalEnv) (stack : Stack) (rules : List SwitchRule) (idx : Nat) (length : Nat) (switchExprResult : String) : Except (EvalError × Stack) (Value × Stack) :=
  match fuel with
  | 0 => .error (.outOfFuel, stack)
  | fuel + 1 =>
    match rules with
    | [] => .ok (Value.undef, stack)
    | caseNode :: rest =>
      if idx = 0 then switchCaseRules fuel env stack rest (idx + 1) length switchExprResult
      else if idx = length - 1 && isDefaultStat caseNode.stat then
        match caseNode.body with
        | some defaultBody => visitNormalTemplateBody fuel env stack defaultBody
        | none => .ok (Value.undef, stack)
      else
        match statExpr caseNode.stat with
        | none => .error (.typeError "reading text of undefined EXPRESSION", stack)
        | some caseExpr =>
          let caseErrorPre := "Case " ++ exprText caseExpr ++ ": "
          match evalExpression fuel env stack caseExpr (some (exprText caseExpr)) caseErrorPre with
          | .error es => .error es
          | .ok (v, stack1) =>
            match jsToString v with
            | .error err => .error (err, stack1)
            | .ok caseExprResult =>
              if switchExprResult = caseExprResult then
                match caseNode.body with
                | some b => visitNormalTemplateBody fuel env stack1 b
                | none => .error (.typeError "visit of undefined body", stack1)
              else switchCaseRules fuel env stack1 rest (idx + 1) length switchExprResult

/-- Evaluator.visitStructuredTemplateBody: seed the result with the
reserved type-tag key bound to the declared type name, then process the
body lines. -/
def visitStructuredTemplateBody (fuel : Nat) (env : EvalEnv) (stack : Stack) (typeName : String) (lines : List StructLine) : Except (EvalError × Stack) (Value × Stack) :=
  match fuel with
  | 0 => .error (.outOfFuel, stack)
  | fuel + 1 =>
    structuredBodyLines fuel env stack typeName lines (jsSet [] LGType (Value.str typeName))

/-- The content-line loop of visitStructuredTemplateBody: a key/value line
writes its evaluated value under the lowercased property identifier
(unconditionally); a bare expression line merges a referenced structured
object of the same declared type without overwriting already-set keys. -/
def structuredBodyLines (fuel : Nat) (env : EvalEnv) (stack : Stack) (typeName : String) (lines : List StructLine) (result : List (String × Value)) : Except (EvalError × Stack) (Value × Stack) :=
  match fuel with
  | 0 => .error (.outOfFuel, stack)
  | fuel + 1 =>
    match lines with
    | [] => .ok (Value.obj result, stack)
    | line :: rest =>
      match line with
      | .keyValueLine key values =>
        let property := toLowerStr key
        match visitStructureValue fuel env stack key values with
        | .error es => .error es
        | .ok (value, stack1) =>
          structuredBodyLines fuel env stack1 typeName rest (jsSet result property value)
      | .objectLine e =>
        match evalExpression fuel env stack e (some (exprText e)) "" with
        | .error es => .error es
        | .ok (propertyObject, stack1) =>
          match propertyObject with
          | .nullV => .error (.typeError "using in operator on null", stack1)
          | .obj fields =>
            match lookupScope fields LGType with
            | some tagVal =>
              match jsToString tagVal with
              | .error err => .error (err, stack1)
              | .ok tagStr =>
                if tagStr = typeName then
                  structuredBodyLines fuel env stack1 typeName rest (mergeStructFields result fields)
                else structuredBodyLines fuel env stack1 typeName rest result
            | none => structuredBodyLines fuel env stack1 typeName rest result
          | _ => structuredBodyLines fuel env stack1 typeName rest result

/-- Evaluator.visitStructureValue: evaluate the value items; a single item
is unwrapped, several items form an array. -/
def visitStructureValue (fuel : Nat) (env : EvalEnv) (stack : Stack) (key : String) (values : List StructItem) : Except (EvalError × Stack) (Value × Stack) :=
  match fuel with
  | 0 => .error (.outOfFuel, stack)
  | fuel + 1 =>
    match keyValueStructureValues fuel env stack key values with
    | .error es => .error es
    | .ok (result, stack1) =>
      match result with
      | [v] => .ok (v, stack1)
      | vs => .ok (Value.arr vs, stack1)

/-- The item loop of visitStructureValue: a pure expression item pushes its
evaluated value; a run of lexical nodes folds into one trimmed string. -/
def keyValueStructureValues (fuel : Nat) (env : EvalEnv) (stack : Stack) (key : String) (values : List StructItem) : Except (EvalError × Stack) (List Value × Stack) :=
  match fuel with
  | 0 => .error (.outOfFuel, stack)
  | fuel + 1 =>
    match values with
    | [] => .ok ([], stack)
    | item :: rest =>
      match item with
      | .pureExpr e =>
        match evalExpression fuel env stack e (some (exprText e)) "" with
        | .error es => .error es
        | .ok (v, stack1) =>
          match keyValueStructureValues fuel env stack1 key rest with
          | .error es => .error es
          | .ok (vs, stack2) => .ok (v :: vs, stack2)
      | .segs nodes =>
        match structSegNodes fuel env stack key nodes "" with
        | .error es => .error es
        | .ok (s, stack1) =>
          match keyValueStructureValues fuel env stack1 key rest with
          | .error es => .error es
          | .ok (vs, stack2) => .ok (Value.str (trimStr s) :: vs, stack2)

/-- The node fold inside one structured value item: escapes (with escaped
pipes restored), embedded expressions (string-coerced by the JS +=
concatenation) and literal text accumulate into one string. -/
def structSegNodes (fuel : Nat) (env : EvalEnv) (stack : Stack) (key : String) (nodes : List Segment) (acc : String) : Except (EvalError × Stack) (String × Stack) :=
  match fuel with
  | 0 => .error (.outOfFuel, stack)
  | fuel + 1 =>
    match nodes with
    | [] => .ok (acc, stack)
    | node :: rest =>
      match node with
      | .escape s => structSegNodes fuel env stack key rest (acc ++ evalEscape (replaceEscapedPipe s))
      | .text s => structSegNodes fuel env stack key rest (acc ++ s)
      | .exprSeg e =>
        let errPre := "Property " ++ key ++ ":"
        match evalExpression fuel env stack e (some (exprText e)) errPre with
        | .error es => .error es
        | .ok (v, stack1) => structSegNodes fuel env stack1 key rest (acc ++ jsStringCoerce v)

end

/-- Severity of a diagnostic produced by parsing and validation. -/
inductive DiagnosticSeverity where
  | Error
  | Warning
deriving Repr, DecidableEq

/-- A parse/validation diagnostic; the source range is not needed by the
claims under verification and is kept as the rendered message. -/
structure Diagnostic where
  severity : DiagnosticSeverity
  message : String
deriving Repr, DecidableEq

/-- An import edge of an LG file. -/
structure TemplateImport where
  description : String
  importId : String
deriving Repr

/-- The Templates collection (the LG entrance class): own templates, import
edges, diagnostics, transitively-reachable referenced collections,
raw content, source id and option lines.  The Set-based identity
deduplication of allTemplates/allDiagnostics is not modelled (object
identity is outside a value embedding); no verified claim exercises
diamond imports. -/
inductive Templates where
  | mk
    (items : List Template)
    (imports : List TemplateImport)
    (diagnostics : List Diagnostic)
    (references : List Templates)
    (content : String)
    (id : String)
    (options : List String)

/-- Own templates of the collection. -/
def Templates.items : Templates → List Template
  | .mk items _ _ _ _ _ _ => items

/-- Own diagnostics of the collection. -/
def Templates.diagnostics : Templates → List Diagnostic
  | .mk _ _ diagnostics _ _ _ _ => diagnostics

/-- Referenced collections reachable through imports. -/
def Templates.references : Templates → List Templates
  | .mk _ _ _ references _ _ _ => references

/-- Raw LG content of the collection. -/
def Templates.content : Templates → String
  | .mk _ _ _ _ content _ _ => content

/-- Option lines of the collection. -/
def Templates.options : Templates → List String
  | .mk _ _ _ _ _ _ options => options

/-- All templates from the current file and the referenced files. -/
def Templates.allTemplates (t : Templates) : List Template :=
  t.references.foldl (fun result ref => result ++ ref.items) t.items

/-- All diagnostics from the current file and the referenced files. -/
def Templates.allDiagnostics (t : Templates) : List Diagnostic :=
  t.references.foldl (fun result ref => result ++ ref.diagnostics) t.diagnostics

/-- Key/value split of one option line at the first equals sign, the key
trimmed and lowercased, mirroring extractOptionByKey. -/
def splitOption (option : String) : Option (String × String) :=
  let k := option.data.takeWhile (fun c => c ≠ '=')
  if k.length = option.data.length then none
  else
    some (toLowerStr (trimStr (String.mk k)),
      trimStr (String.mk (option.data.drop (k.length + 1))))

/-- Modelled from the spec: evaluationOptions.ts is not among the provided
sources.  Recognized evaluation options parsed from the option lines
(strict mode and line-break style; the null-substitution expression is not
modelled). -/
def EvaluationOptions.fromOptionStrings (options : List String) : EvaluationOptions :=
  options.foldl
    (fun acc opt =>
      match splitOption opt with
      | some ("@strict", v) => { acc with strictMode := some (toLowerStr v = "true") }
      | some ("@linebreakstyle", v) =>
        let style := if toLowerStr v = "markdown" then LGLineBreakStyle.markdown else LGLineBreakStyle.defaultStyle
        { acc with lineBreakStyle := some style }
      | _ => acc)
    {}

/-- Evaluation options of the collection, parsed from its option lines. -/
def Templates.lgOptions (t : Templates) : EvaluationOptions :=
  EvaluationOptions.fromOptionStrings t.options

/-- Templates.checkErrors: the pre-flight check run by evaluate, expand and
analyze; any Error-severity diagnostic among allDiagnostics throws their
joined messages. -/
def Templates.checkErrors (t : Templates) : Except EvalError Unit :=
  let errors := t.allDiagnostics.filter (fun d => d.severity = DiagnosticSeverity.Error)
  if errors.length ≠ 0 then
    .error (.msg (String.intercalate "\r\n" (errors.map (fun d => d.message))))
  else .ok ()

/-- Templates.evaluate: pre-flight diagnostics check, option merge, a fresh
Evaluator over allTemplates, and a second newline doubling of a string
result in markdown mode. -/
def Templates.evaluate (t : Templates) (choose : Nat → Nat) (fuel : Nat) (templateName : String) (scope : Scope) (opt : Option EvaluationOptions) : Except EvalError Value :=
  match t.checkErrors with
  | .error e => .error e
  | .ok _ =>
    let evalOpt := match opt with | some o => o.merge t.lgOptions | none => t.lgOptions
    let env : EvalEnv := ⟨t.allTemplates, evalOpt, choose⟩
    match evaluateTemplate fuel env [] templateName ⟨scope, none⟩ with
    | .error (e, _) => .error e
    | .ok (result, _) => .ok (lineBreakPostProcess evalOpt result)

/-- Templates.expandTemplate: pre-flight diagnostics check, then delegation
to an Expander over allTemplates (expander.ts is not among the provided
sources, so the expansion work is a parameter). -/
def Templates.expandTemplate (t : Templates) (expander : List Template → String → Scope → Except EvalError (List Value)) (templateName : String) (scope : Scope) : Except EvalError (List Value) :=
  match t.checkErrors with
  | .error e => .error e
  | .ok _ => expander t.allTemplates templateName scope

/-- Templates.analyzeTemplate: pre-flight diagnostics check, then
delegation to an Analyzer over allTemplates (analyzer.ts is not among the
provided sources, so the analysis work is a parameter). -/
def Templates.analyzeTemplate (t : Templates) (analyzer : List Template → String → Except EvalError (List String × List String)) (templateName : String) : Except EvalError (List String × List String) :=
  match t.checkErrors with
  | .error e => .error e
  | .ok _ => analyzer t.allTemplates templateName

/-- Normalization of carriage-return line endings over the character
list. -/
def normalizeNewlinesAux : List Char → List Char
  | [] => []
  | '\r' :: '\n' :: rest => '\n' :: normalizeNewlinesAux rest
  | c :: rest => c :: normalizeNewlinesAux rest

/-- Split at line feeds over the character list. -/
def splitLinesAux : List Char → List (List Char)
  | [] => [[]]
  | '\n' :: rest => [] :: splitLinesAux rest
  | c :: rest =>
    match splitLinesAux rest with
    | [] => [[c]]
    | l :: ls => (c :: l) :: ls

/-- Modelled from the spec: templateExtensions.ts is not among the provided
sources.  Split of text into lines. -/
def readLine (input : String) : List String :=
  (splitLinesAux (normalizeNewlinesAux input.data)).map String.mk

/-- Templates.buildTemplateNameLine: the header line of a template, with
the parenthesized parameter list when parameters are given. -/
def buildTemplateNameLine (templateName : String) (parameters : Option (List String)) : String :=
  match parameters with
  | none => "# " ++ templateName
  | some ps => "# " ++ templateName ++ "(" ++ String.intercalate ", " ps ++ ")"

/-- Templates.convertTemplateBody: body lines whose trimmed form starts
with a hash are prefixed with a dash. -/
def convertTemplateBody (templateBody : String) : String :=
  if templateBody = "" then ""
  else
    let replaceList := readLine templateBody
    let destList := replaceList.map
      (fun u => if (trimLeftStr u).data.head? = some '#' then "- " ++ trimLeftStr u else u)
    String.intercalate "\r\n" destList

/-- Templates.replaceRangeContent: splice of a line range of the backing
source text; a missing replacement line (the delete case) joins as an
empty line. -/
def replaceRangeContent (originString : String) (startLine stopLine : Nat) (replaceString : Option String) : Except EvalError String :=
  let originList := readLine originString
  if startLine > stopLine ∨ stopLine ≥ originList.length then .error (.msg "index out of range.")
  else
    .ok (String.intercalate "\r\n"
      (originList.take startLine ++ [replaceString.getD ""] ++ originList.drop (stopLine + 1)))

/-- Templates.updateTemplate: a name that matches no template returns the
collection unchanged; otherwise the template line range is rewritten and
the whole file is reparsed (TemplatesParser.parseText is a parameter since
templatesParser.ts is not among the provided sources; initialize replaces
the entire collection state with the reparse result). -/
def Templates.updateTemplate (t : Templates) (parseText : String → Templates) (templateName newTemplateName : String) (parameters : List String) (templateBody : String) : Except EvalError Templates :=
  match t.items.find? (fun u => u.name = templateName) with
  | none => .ok t
  | some template =>
    let templateNameLine := buildTemplateNameLine newTemplateName (some parameters)
    let newTemplateBody := convertTemplateBody templateBody
    let content := templateNameLine ++ "\r\n" ++ newTemplateBody
    let startLine := template.sourceRange.startLine - 1
    let stopLine := template.sourceRange.endLine - 1
    match replaceRangeContent t.content startLine stopLine (some content) with
    | .error e => .error e
    | .ok newContent => .ok (parseText newContent)

/-- Templates.addTemplate: a name that already names a template throws a
template-exists error before any state change; otherwise the new template
text is appended and the whole file is reparsed. -/
def Templates.addTemplate (t : Templates) (parseText : String → Templates) (templateName : String) (parameters : List String) (templateBody : String) : Except EvalError Templates :=
  match t.items.find? (fun u => u.name = templateName) with
  | some _ => .error (.templateExist templateName)
  | none =>
    let templateNameLine := buildTemplateNameLine templateName (some parameters)
    let newTemplateBody := convertTemplateBody templateBody
    let newContent := t.content ++ "\r\n" ++ templateNameLine ++ "\r\n" ++ newTemplateBody
    .ok (parseText newContent)

/-- Templates.deleteTemplate: a name that matches no template returns the
collection unchanged; otherwise the template line range is removed and the
whole file is reparsed. -/
def Templates.deleteTemplate (t : Templates) (parseText : String → Templates) (templateName : String) : Except EvalError Templates :=
  match t.items.find? (fun u => u.name = templateName) with
  | none => .ok t
  | some template =>
    let startLine := template.sourceRange.startLine - 1
    let stopLine := template.sourceRange.endLine - 1
    match replaceRangeContent t.content startLine stopLine none with
    | .error e => .error e
    | .ok newContent => .ok (parseText newContent)

/-- The loop-detected chain buried inside an error, unwrapping the
expression-context layers added while the error propagated. -/
def loopChain : EvalError → Option (List String)
  | .loopDetected chain => some chain
  | .wrapped child _ => loopChain child
  | _ => none

/-- Relation between the evaluation-target stack at entry and at a
successful exit: same frames in the same order, except that the top frame
may have accumulated memoization entries. -/
def memoExt (s s1 : Stack) : Prop :=
  match s, s1 with
  | [], [] => True
  | f :: r, f1 :: r1 => f1.templateName = f.templateName ∧ f1.scope = f.scope ∧ r1 = r
  | _, _ => False

/-- Whether every non-last rule of a case list is a CASE statement and a
DEFAULT statement appears only in the last position (the shape the parser
produces: DEFAULT, when present, is last). -/
def wellFormedCases : List SwitchRule → Bool
  | [] => true
  | c :: rest =>
    match c.stat with
    | .switchStat _ => false
    | .defaultStat => rest.isEmpty
    | .caseStat _ => wellFormedCases rest

/-- The switch-case scan as the specification states it: case expressions
are evaluated to strings in source order, the first case whose stringified
result equals the stringified switch result wins and its body is
evaluated; a DEFAULT case is used only when it is the last case and no
earlier case matched; no match and no default yields undefined.  Fuel is
consumed in lockstep with the source loop so the two can be compared. -/
def specSwitchCases (fuel : Nat) (env : EvalEnv) (stack : Stack) (cases : List SwitchRule) (switchExprResult : String) : Except (EvalError × Stack) (Value × Stack) :=
  match fuel with
  | 0 => .error (.outOfFuel, stack)
  | fuel + 1 =>
    match cases with
    | [] => .ok (Value.undef, stack)
    | c :: rest =>
      match c.stat with
      | .defaultStat =>
        if rest.isEmpty then
          match c.body with
          | some defaultBody => visitNormalTemplateBody fuel env stack defaultBody
          | none => .ok (Value.undef, stack)
        else specSwitchCases fuel env stack rest switchExprResult
      | .switchStat e =>
        let caseErrorPre := "Case " ++ exprText e ++ ": "
        match evalExpression fuel env stack e (some (exprText e)) caseErrorPre with
        | .error es => .error es
        | .ok (v, stack1) =>
          match jsToString v with
          | .error err => .error (err, stack1)
          | .ok caseExprResult =>
            if switchExprResult = caseExprResult then
              match c.body with
              | some b => visitNormalTemplateBody fuel env stack1 b
              | none => .error (.typeError "visit of undefined body", stack1)
            else specSwitchCases fuel env stack1 rest switchExprResult
      | .caseStat e =>
        let caseErrorPre := "Case " ++ exprText e ++ ": "
        match evalExpression fuel env stack e (some (exprText e)) caseErrorPre with
        | .error es => .error es
        | .ok (v, stack1) =>
          match jsToString v with
          | .error err => .error (err, stack1)
          | .ok caseExprResult =>
            if switchExprResult = caseExprResult then
              match c.body with
              | some b => visitNormalTemplateBody fuel env stack1 b
              | none => .error (.typeError "visit of undefined body", stack1)
            else specSwitchCases fuel env stack1 rest switchExprResult

/-- The source key of a structured body line, none for bare expression
lines. -/
def lineKey : StructLine → Option String
  | .keyValueLine k _ => some k
  | .objectLine _ => none

/-- Whether a structured body line is a literal key/value line. -/
def isKeyValueLine : StructLine → Bool
  | .keyValueLine _ _ => true
  | .objectLine _ => false

/-- The lowercased source keys of the key/value lines, in order. -/
def lowerKeys (lines : List StructLine) : List String :=
  lines.filterMap (fun l => (lineKey l).map toLowerStr)

/-- Fixed randomness stub used by the concrete runs: always the first
candidate. -/
def choose0 : Nat → Nat := fun _ => 0

/-- The empty scope used by the concrete runs. -/
def scope0 : CustomizedMemory := ⟨[], none⟩

/-- Default evaluation options used by the concrete runs. -/
def opts0 : EvaluationOptions := {}

/-- Template a, whose single body line calls template b. -/
def tplA : Template := { name := "a", parameters := [], templateBody := TemplateBody.normal [[Segment.exprSeg (Expr.call "b" [])]] }

/-- Template b, whose single body line calls template a back. -/
def tplB : Template := { name := "b", parameters := [], templateBody := TemplateBody.normal [[Segment.exprSeg (Expr.call "a" [])]] }

/-- The two-template environment with the transitive cycle a to b to a. -/
def envAB : EvalEnv := ⟨[tplA, tplB], opts0, choose0⟩

/-- A stack frame for template a over the empty scope. -/
def frameA : EvaluationTarget := ⟨"a", scope0, []⟩

/-- A stack frame for template b over the empty scope. -/
def frameB : EvaluationTarget := ⟨"b", scope0, []⟩

/-- A template whose body produces a string containing one newline. -/
def tplNewline : Template := { name := "t", parameters := [], templateBody := TemplateBody.normal [[Segment.text "a\nb"]] }

/-- A collection holding only `tplNewline`, with no diagnostics. -/
def collNewline : Templates := Templates.mk [tplNewline] [] [] [] "" "" []

/-- A structured template whose two literal key/value lines use the same
key with different values. -/
def tplDup : Template :=
  { name := "s", parameters := [],
    templateBody := TemplateBody.structured "T" [StructLine.keyValueLine "key" [StructItem.segs [Segment.text "a"]], StructLine.keyValueLine "key" [StructItem.segs [Segment.text "b"]]] }

/-- Environment holding only `tplDup`. -/
def envDup : EvalEnv := ⟨[tplDup], opts0, choose0⟩

/-- A parameterless template with the constant body fresh. -/
def tplFresh : Template := { name := "u", parameters := [], templateBody := TemplateBody.normal [[Segment.text "fresh"]] }

/-- Environment holding only `tplFresh`. -/
def envFresh : EvalEnv := ⟨[tplFresh], opts0, choose0⟩

/-- The memoization fingerprint of an invocation of `tplFresh` over the
empty scope. -/
def idFresh : String := EvaluationTarget.getId ⟨"u", scope0, []⟩

/-- A caller frame whose memoization map already holds a value for
`idFresh`. -/
def callerFrame (v : Value) : EvaluationTarget := ⟨"caller", scope0, [(idFresh, v)]⟩

/-- A switch-bodied template over the scope variable x with cases 1 and 2
and a default. -/
def rulesSwitch : List SwitchRule :=
  [⟨SwitchStat.switchStat (Expr.var "x"), none⟩,
   ⟨SwitchStat.caseStat (Expr.lit (Value.str "1")), some [[Segment.text "one"]]⟩,
   ⟨SwitchStat.caseStat (Expr.lit (Value.str "2")), some [[Segment.text "two"]]⟩,
   ⟨SwitchStat.defaultStat, some [[Segment.text "dflt"]]⟩]

/-- The switch template built over `rulesSwitch`. -/
def tplSwitch : Template := { name := "w", parameters := [], templateBody := TemplateBody.switchCase rulesSwitch }

/-- Environment holding only `tplSwitch`. -/
def envSwitch : EvalEnv := ⟨[tplSwitch], opts0, choose0⟩

/-- A two-parameter template echoing its first parameter. -/
def tplParam : Template := { name := "p", parameters := ["x", "y"], templateBody := TemplateBody.normal [[Segment.exprSeg (Expr.var "x")]] }

/-- Environment holding only `tplParam`. -/
def envParam : EvalEnv := ⟨[tplParam], opts0, choose0⟩

/-- A caller scope with one global binding and one local binding. -/
def callerScope : CustomizedMemory := ⟨[("g", Value.str "G")], some [("loc", Value.str "L")]⟩

/-- A frame of a calling template over `callerScope`. -/
def callerParamFrame : EvaluationTarget := ⟨"c", callerScope, []⟩

/-- A one-template collection with source text, used by the edit-operation
runs. -/
def collHi : Templates :=
  Templates.mk [{ name := "t", parameters := [], templateBody := TemplateBody.normal [[Segment.text "hi"]], sourceRange := ⟨1, 2⟩ }] [] [] [] "# t\r\n- hi" "" []

/-- A collection carrying one Error-severity diagnostic. -/
def collErr : Templates := Templates.mk [] [] [Diagnostic.mk DiagnosticSeverity.Error "boom"] [] "" "" []

/-- A structured template with an uppercase source key. -/
def tplUpper : Template :=
  { name := "up", parameters := [],
    templateBody := TemplateBody.structured "MyCard" [StructLine.keyValueLine "Title" [StructItem.segs [Segment.text "hello"]]] }

/-- Environment holding only `tplUpper`. -/
def envUpper : EvalEnv := ⟨[tplUpper], opts0, choose0⟩

/-- Strict-mode environment holding only `tplFresh`. -/
def envFreshStrict : EvalEnv := ⟨[tplFresh], { strictMode := some true }, choose0⟩

/-- C2: the evaluation-target stack is not restored on the loop-detected
exit path.  In the cycle a calls b calls a, the inner evaluateTemplate of a
is entered with stack frames b over a but exits throwing with the live
stack reversed in place to a over b (Array.prototype.reverse mutates); the
subsequent error-path pop in the evalExpression of b then removes the
frame of a instead of the frame of b, so evaluateTemplate of b exits with
the frame of b still on the stack instead of the frame of a it was entered
over. -/
theorem c2_code_bug :
    (evaluateTemplate 50 envAB [frameB, frameA] "a" scope0 =
        .error (.loopDetected ["b", "a"], [frameA, frameB])
      ∧ [frameA, frameB].map EvaluationTarget.templateName ≠
          [frameB, frameA].map EvaluationTarget.templateName)
    ∧ (evaluateTemplate 50 envAB [frameA] "b" scope0 =
        .error (.wrapped (.loopDetected ["b", "a"])
          " Error occurred when evaluating a() in template a.", [frameB])
      ∧ [frameB].map EvaluationTarget.templateName ≠
          [frameA].map EvaluationTarget.templateName) :=
  ⟨⟨rfl, by decide⟩, ⟨rfl, by decide⟩⟩

/-- C3: with the markdown line-break style configured, a template whose
body evaluates to the string a-newline-b is returned by Templates.evaluate
with the newline quadrupled, because the doubling is applied twice, once
by Evaluator.evaluateTemplate and once more by Templates.evaluate; the
claim (and the spec) call for exactly one doubling. -/
theorem c3_code_bug :
    Templates.evaluate collNewline choose0 50 "t" []
        (some { lineBreakStyle := some LGLineBreakStyle.markdown }) =
      .ok (Value.str "a\n\n\n\nb")
    ∧ ("a\n\n\n\nb" : String) ≠ "a\n\nb" :=
  ⟨rfl, by decide⟩

/-- C1 counterexample: template a reaches itself through template b; the
call chain reported by the loop-detected error is b then a, which is the
reverse of the invocation order a then b, and does not contain the queried
template a at its first position. -/
theorem c1_counterexample :
    evaluateTemplate 50 envAB [] "a" scope0 =
      .error
        (.wrapped
          (.wrapped (.loopDetected ["b", "a"])
            " Error occurred when evaluating a() in template a.")
          " Error occurred when evaluating b() in template b.", [])
    ∧ loopChain
        (.wrapped
          (.wrapped (.loopDetected ["b", "a"])
            " Error occurred when evaluating a() in template a.")
          " Error occurred when evaluating b() in template b.") = some ["b", "a"]
    ∧ (["b", "a"] : List String) ≠ ["a", "b"]
    ∧ (["b", "a"] : List String).head? ≠ some "a" :=
  ⟨rfl, rfl, by decide, by decide⟩

/-- C1 amended: a template name found anywhere on the evaluation-target
stack fails with a loop-detected error whose reported chain lists the
active invocations most-recent-first (the reverse of invocation order);
the name of the outermost (first-invoked) template sits at the last
position of the chain, and the re-invoked name occurs in the chain. -/
theorem c1_amended (fuel : Nat) (env : EvalEnv) (stack : Stack) (inputName : String)
    (scope : CustomizedMemory) (re : Bool) (pureName t0 : String)
    (hparse : parseTemplateName inputName = .ok (re, pureName))
    (hmap : (keyByName env.templates pureName).isSome = true)
    (hloop : stack.any (fun u => u.templateName = pureName) = true)
    (hbottom : (stack.map (fun u => u.templateName)).getLast? = some t0) :
    evaluateTemplate (fuel + 1) env stack inputName scope =
      .error (.loopDetected (stack.map fun u => u.templateName), stack.reverse)
    ∧ pureName ∈ stack.map (fun u => u.templateName)
    ∧ (stack.map fun u => u.templateName).getLast? = some t0 := by
  obtain ⟨tmpl, hm⟩ := Option.isSome_iff_exists.mp hmap
  refine ⟨?_, ?_, hbottom⟩
  · simp only [evaluateTemplate, hparse, hm, hloop, if_true]
  · obtain ⟨u, hu, hp⟩ := List.any_eq_true.mp hloop
    exact List.mem_map.mpr ⟨u, hu, of_decide_eq_true hp⟩

/-- C1 amended witness: the amended statement instantiated on the cycle a
to b to a at the moment of detection. -/
theorem c1_amended_witness :
    parseTemplateName "a" = .ok (false, "a")
    ∧ (keyByName envAB.templates "a").isSome = true
    ∧ [frameB, frameA].any (fun u => u.templateName = "a") = true
    ∧ (([frameB, frameA] : Stack).map (fun u => u.templateName)).getLast? = some "a"
    ∧ (evaluateTemplate 1 envAB [frameB, frameA] "a" scope0 =
        .error (.loopDetected ([frameB, frameA].map fun u => u.templateName), ([frameB, frameA] : Stack).reverse)
      ∧ "a" ∈ ([frameB, frameA] : Stack).map (fun u => u.templateName)
      ∧ (([frameB, frameA] : Stack).map fun u => u.templateName).getLast? = some "a") :=
  ⟨rfl, rfl, by decide, rfl,
    c1_amended 0 envAB [frameB, frameA] "a" scope0 false "a" "a" rfl rfl (by decide) rfl⟩

/-- C4 counterexample: a structured body with two literal key/value lines
that share the key key and carry the values a then b yields b for that
key: the later literal line overwrote the value set by the earlier one,
refuting first-writer-wins for literal key/value lines. -/
theorem c4_counterexample :
    evaluateTemplate 50 envDup [] "s" scope0 =
      .ok (.obj [("lgType", .str "T"), ("key", .str "b")], [])
    ∧ Value.str "b" ≠ Value.str "a" :=
  ⟨rfl, by simp⟩

/-- C7: constructing the scope for a template invoked as a function: with
zero arguments the caller scope is inherited unchanged; with arguments the
declared parameters are bound positionally as a fresh local layer over the
caller global layer only, so a name not bound by the parameters resolves
exactly as it would against the caller global layer alone. -/
theorem c7 (env : EvalEnv) (cur : EvaluationTarget) (rest : Stack)
    (inputName pureName : String) (re : Bool) (tmpl : Template) (args : List Value)
    (hparse : parseTemplateName inputName = .ok (re, pureName))
    (hmap : keyByName env.templates pureName = some tmpl) :
    (args = [] → constructScope env (cur :: rest) inputName args = .ok cur.scope)
    ∧ (args ≠ [] →
        constructScope env (cur :: rest) inputName args =
          .ok ⟨cur.scope.globalMemory, some (bindParameters tmpl.parameters args)⟩
        ∧ ∀ key : String,
            lookupScope (bindParameters tmpl.parameters args) key = none →
            CustomizedMemory.getValue ⟨cur.scope.globalMemory, some (bindParameters tmpl.parameters args)⟩ key =
              CustomizedMemory.getValue ⟨cur.scope.globalMemory, none⟩ key) := by
  constructor
  · intro h
    subst h
    simp [constructScope, hparse, hmap]
  · intro h
    have hlen : args.length ≠ 0 := by
      intro hc
      exact h (List.length_eq_zero.mp hc)
    constructor
    · simp [constructScope, hparse, hmap, hlen]
    · intro key hk
      simp [CustomizedMemory.getValue, hk]

/-- C7 witness: the scope construction instantiated on a two-parameter
template called with no arguments and with one argument. -/
theorem c7_witness :
    constructScope envParam [callerParamFrame] "p" [] = .ok callerParamFrame.scope
    ∧ constructScope envParam [callerParamFrame] "p" [Value.str "A"] =
        .ok ⟨callerParamFrame.scope.globalMemory, some (bindParameters tplParam.parameters [Value.str "A"])⟩ :=
  ⟨(c7 envParam callerParamFrame [] "p" "p" false tplParam [] rfl rfl).1 rfl,
   ((c7 envParam callerParamFrame [] "p" "p" false tplParam [Value.str "A"] rfl rfl).2 (by simp)).1⟩

/-- C8: updateTemplate and deleteTemplate with a name that matches no
template return the collection unchanged before computing any splice or
reparse; addTemplate with a name that already names a template throws a
template-exists error before any state change. -/
theorem c8 (t : Templates) (parseText : String → Templates) (nameX newName : String)
    (params : List String) (body : String) :
    (t.items.find? (fun u => u.name = nameX) = none →
      Templates.updateTemplate t parseText nameX newName params body = .ok t
      ∧ Templates.deleteTemplate t parseText nameX = .ok t)
    ∧ (∀ tmpl, t.items.find? (fun u => u.name = nameX) = some tmpl →
        Templates.addTemplate t parseText nameX params body = .error (.templateExist nameX)) := by
  constructor
  · intro h
    constructor
    · simp [Templates.updateTemplate, h]
    · simp [Templates.deleteTemplate, h]
  · intro tmpl h
    simp [Templates.addTemplate, h]

/-- C8 witness: the edit operations instantiated on a one-template
collection, with a missing name for update/delete and the existing name
for add. -/
theorem c8_witness :
    collHi.items.find? (fun u => u.name = "missing") = none
    ∧ (Templates.updateTemplate collHi (fun s => Templates.mk [] [] [] [] s "" []) "missing" "n" [] "- x" = .ok collHi
      ∧ Templates.deleteTemplate collHi (fun s => Templates.mk [] [] [] [] s "" []) "missing" = .ok collHi)
    ∧ Templates.addTemplate collHi (fun s => Templates.mk [] [] [] [] s "" []) "t" [] "- x" =
        .error (.templateExist "t") :=
  ⟨rfl,
   (c8 collHi (fun s => Templates.mk [] [] [] [] s "" []) "missing" "n" [] "- x").1 rfl,
   (c8 collHi (fun s => Templates.mk [] [] [] [] s "" []) "t" "n" [] "- x").2 _ rfl⟩

/-- C9: when the aggregated diagnostics (own and referenced) contain an
Error-severity diagnostic, evaluate, expandTemplate and analyzeTemplate
all throw the joined diagnostic messages before performing any evaluation,
expansion or analysis work (the result is the checkErrors error for every
choice of evaluator fuel, expander and analyzer); without such a
diagnostic the pre-flight check passes and each operation proceeds to its
work. -/
theorem c9 (t : Templates) :
    ((∃ d ∈ t.allDiagnostics, d.severity = DiagnosticSeverity.Error) →
      ∃ emsg : EvalError,
        t.checkErrors = .error emsg
        ∧ (∀ choose fuel name scope opt,
            Templates.evaluate t choose fuel name scope opt = .error emsg)
        ∧ (∀ expander name scope,
            Templates.expandTemplate t expander name scope = .error emsg)
        ∧ (∀ analyzer name,
            Templates.analyzeTemplate t analyzer name = .error emsg))
    ∧ ((¬ ∃ d ∈ t.allDiagnostics, d.severity = DiagnosticSeverity.Error) →
      t.checkErrors = .ok ()
      ∧ (∀ choose fuel name scope opt,
          Templates.evaluate t choose fuel name scope opt =
            (let evalOpt := match opt with | some o => o.merge t.lgOptions | none => t.lgOptions
             match evaluateTemplate fuel ⟨t.allTemplates, evalOpt, choose⟩ [] name ⟨scope, none⟩ with
             | .error (e, _) => .error e
             | .ok (result, _) => .ok (lineBreakPostProcess evalOpt result)))
      ∧ (∀ expander name scope,
          Templates.expandTemplate t expander name scope = expander t.allTemplates name scope)
      ∧ (∀ analyzer name,
          Templates.analyzeTemplate t analyzer name = analyzer t.allTemplates name)) := by
  have hfilter : ∀ d ∈ t.allDiagnostics.filter (fun d => d.severity = DiagnosticSeverity.Error),
      d.severity = DiagnosticSeverity.Error := by
    intro d hd
    exact of_decide_eq_true (List.mem_filter.mp hd).2
  constructor
  · intro ⟨d, hd, hsev⟩
    have hmem : d ∈ t.allDiagnostics.filter (fun d => d.severity = DiagnosticSeverity.Error) :=
      List.mem_filter.mpr ⟨hd, decide_eq_true hsev⟩
    have hne : (t.allDiagnostics.filter (fun d => d.severity = DiagnosticSeverity.Error)).length ≠ 0 := by
      intro hc
      rw [List.length_eq_zero] at hc
      rw [hc] at hmem
      exact absurd hmem (List.not_mem_nil d)
    have hchk : t.checkErrors =
        .error (.msg (String.intercalate "\r\n"
          ((t.allDiagnostics.filter (fun d => d.severity = DiagnosticSeverity.Error)).map
            (fun d => d.message)))) := by
      simp only [Templates.checkErrors, if_pos hne]
    refine ⟨_, hchk, ?_, ?_, ?_⟩
    · intro choose fuel name scope opt
      simp only [Templates.evaluate, hchk]
    · intro expander name scope
      simp only [Templates.expandTemplate, hchk]
    · intro analyzer name
      simp only [Templates.analyzeTemplate, hchk]
  · intro hno
    have hnil : t.allDiagnostics.filter (fun d => d.severity = DiagnosticSeverity.Error) = [] := by
      by_contra hc
      obtain ⟨d, hd⟩ := List.exists_mem_of_ne_nil _ hc
      exact hno ⟨d, List.mem_of_mem_filter hd, hfilter d hd⟩
    have hchk : t.checkErrors = .ok () := by
      simp only [Templates.checkErrors, hnil]
      simp
    refine ⟨hchk, ?_, ?_, ?_⟩
    · intro choose fuel name scope opt
      simp only [Templates.evaluate, hchk]
    · intro expander name scope
      simp only [Templates.expandTemplate, hchk]
    · intro analyzer name
      simp only [Templates.analyzeTemplate, hchk]

/-- C9 witness: a collection carrying one Error-severity diagnostic throws
it from all three operations; the error-free collection proceeds. -/
theorem c9_witness :
    (∃ d ∈ collErr.allDiagnostics, d.severity = DiagnosticSeverity.Error)
    ∧ (∃ emsg : EvalError,
        collErr.checkErrors = .error emsg
        ∧ (∀ choose fuel name scope opt,
            Templates.evaluate collErr choose fuel name scope opt = .error emsg)
        ∧ (∀ expander name scope,
            Templates.expandTemplate collErr expander name scope = .error emsg)
        ∧ (∀ analyzer name,
            Templates.analyzeTemplate collErr analyzer name = .error emsg)) :=
  ⟨⟨Diagnostic.mk DiagnosticSeverity.Error "boom", by decide, rfl⟩,
   (c9 collErr).1 ⟨Diagnostic.mk DiagnosticSeverity.Error "boom", by decide, rfl⟩⟩

/-- A key found in the left part of an appended scope is found unchanged
in the whole. -/
theorem lookupScope_append_left (l1 l2 : Scope) (k : String) (v : Value)
    (h : lookupScope l1 k = some v) : lookupScope (l1 ++ l2) k = some v := by
  induction l1 with
  | nil => simp [lookupScope] at h
  | cons kv rest ih =>
    obtain ⟨k1, v1⟩ := kv
    by_cases hk : k1 = k
    · simp [lookupScope, hk] at h ⊢
      exact h
    · simp [lookupScope, hk] at h ⊢
      exact ih h

/-- Lookup distributes over append: the left part wins when it has the
key. -/
theorem lookupScope_append (l1 l2 : Scope) (k : String) :
    lookupScope (l1 ++ l2) k =
      match lookupScope l1 k with
      | some v => some v
      | none => lookupScope l2 k := by
  induction l1 with
  | nil => simp [lookupScope]
  | cons kv rest ih =>
    obtain ⟨k1, v1⟩ := kv
    by_cases hk : k1 = k
    · simp [lookupScope, hk]
    · simp [lookupScope, hk, ih]

/-- A JS property write makes the key readable with the written value. -/
theorem jsSet_lookup_self (l : Scope) (k : String) (v : Value) :
    lookupScope (jsSet l k v) k = some v := by
  induction l with
  | nil => simp [jsSet, lookupScope]
  | cons kv rest ih =>
    obtain ⟨k1, v1⟩ := kv
    by_cases hk : k1 = k
    · simp [jsSet, hk, lookupScope]
    · simp [jsSet, hk, lookupScope, ih]

/-- A JS property write on a missing key appends the pair. -/
theorem jsSet_of_lookup_none (l : Scope) (k : String) (v : Value)
    (h : lookupScope l k = none) : jsSet l k v = l ++ [(k, v)] := by
  induction l with
  | nil => simp [jsSet]
  | cons kv rest ih =>
    obtain ⟨k1, v1⟩ := kv
    by_cases hk : k1 = k
    · simp [lookupScope, hk] at h
    · simp [lookupScope, hk] at h
      simp [jsSet, hk, ih h]

/-- C4 amended: merging a referenced structured object never overwrites:
every key already bound in the partial result keeps its value across
mergeStructFields (the merge path of visitStructuredTemplateBody); a
literal key/value line, by contrast, writes through jsSet
unconditionally, so the last literal line wins for a repeated key. -/
theorem c4_amended :
    (∀ (result fields : List (String × Value)) (k : String) (v : Value),
        lookupScope result k = some v →
        lookupScope (mergeStructFields result fields) k = some v)
    ∧ (∀ (result : List (String × Value)) (k : String) (v : Value),
        lookupScope (jsSet result k v) k = some v) := by
  constructor
  · intro result fields
    induction fields generalizing result with
    | nil => intro k v h; simpa [mergeStructFields] using h
    | cons kv rest ih =>
      intro k v h
      have hstep : ∀ acc : List (String × Value),
          lookupScope acc k = some v →
          lookupScope (if (lookupScope acc kv.1).isSome then acc else acc ++ [kv]) k = some v := by
        intro acc hacc
        by_cases hmem : (lookupScope acc kv.1).isSome
        · simpa [hmem] using hacc
        · simp only [hmem, if_false]
          exact lookupScope_append_left _ _ _ _ hacc
      have := ih (if (lookupScope result kv.1).isSome then result else result ++ [kv]) k v
        (hstep result h)
      simpa [mergeStructFields] using this
  · intro result k v
    exact jsSet_lookup_self result k v

/-- C4 amended witness: the merge keeps the earlier binding of key while a
literal write replaces it. -/
theorem c4_amended_witness :
    lookupScope (mergeStructFields [("key", Value.str "a")] [("key", Value.str "z"), ("extra", Value.str "x")]) "key" = some (Value.str "a")
    ∧ lookupScope (jsSet [("key", Value.str "a")] "key" (Value.str "b")) "key" = some (Value.str "b") :=
  ⟨c4_amended.1 [("key", Value.str "a")] [("key", Value.str "z"), ("extra", Value.str "x")] "key" (Value.str "a") rfl,
   c4_amended.2 [("key", Value.str "a")] "key" (Value.str "b")⟩

/-- Processing a run of literal key/value lines with pairwise-distinct
lowercased keys, none already bound in the accumulator, appends one entry
per line, keyed by the lowercased source key, in source order. -/
theorem structuredBodyLines_allKV (env : EvalEnv) (ty : String) :
    ∀ (lines : List StructLine) (fuel : Nat) (stack : Stack) (acc : List (String × Value))
      (v : Value) (stack1 : Stack),
    (∀ l ∈ lines, isKeyValueLine l = true) →
    (lowerKeys lines).Nodup →
    (∀ k ∈ lowerKeys lines, lookupScope acc k = none) →
    structuredBodyLines fuel env stack ty lines acc = .ok (v, stack1) →
    ∃ vals : List Value, vals.length = lines.length
      ∧ v = Value.obj (acc ++ (lowerKeys lines).zip vals) := by
  intro lines
  induction lines with
  | nil =>
    intro fuel stack acc v stack1 _ _ _ hrun
    cases fuel with
    | zero => simp [structuredBodyLines] at hrun
    | succ f =>
      simp only [structuredBodyLines, Except.ok.injEq, Prod.mk.injEq] at hrun
      exact ⟨[], rfl, by simp [lowerKeys, hrun.1.symm]⟩
  | cons line rest ih =>
    intro fuel stack acc v stack1 hkv hnd hdisj hrun
    cases fuel with
    | zero => simp [structuredBodyLines] at hrun
    | succ f =>
      cases line with
      | objectLine e =>
        have := hkv _ (List.mem_cons_self _ _)
        simp [isKeyValueLine] at this
      | keyValueLine key values =>
        simp only [structuredBodyLines] at hrun
        cases hvsv : visitStructureValue f env stack key values with
        | error es => rw [hvsv] at hrun; simp at hrun
        | ok pr =>
          obtain ⟨value, stackX⟩ := pr
          rw [hvsv] at hrun
          dsimp only at hrun
          have hkeys : lowerKeys (StructLine.keyValueLine key values :: rest) =
              toLowerStr key :: lowerKeys rest := by
            simp [lowerKeys, lineKey]
          have hkey : lookupScope acc (toLowerStr key) = none := by
            apply hdisj
            rw [hkeys]
            exact List.mem_cons_self _ _
          rw [jsSet_of_lookup_none _ _ _ hkey] at hrun
          rw [hkeys] at hnd
          have hnd' : (lowerKeys rest).Nodup := hnd.of_cons
          have hne : toLowerStr key ∉ lowerKeys rest := (List.nodup_cons.mp hnd).1
          have hdisj' : ∀ k ∈ lowerKeys rest, lookupScope (acc ++ [(toLowerStr key, value)]) k = none := by
            intro k hk
            rw [lookupScope_append]
            have h1 : lookupScope acc k = none := by
              apply hdisj
              rw [hkeys]
              exact List.mem_cons_of_mem _ hk
            rw [h1]
            have hkne : toLowerStr key ≠ k := fun hc => hne (hc ▸ hk)
            simp [lookupScope, hkne]
          obtain ⟨vals, hlen, hv⟩ :=
            ih f stackX (acc ++ [(toLowerStr key, value)]) v stack1
              (fun l hl => hkv l (List.mem_cons_of_mem _ hl)) hnd' hdisj' hrun
          refine ⟨value :: vals, by simp [hlen], ?_⟩
          rw [hv, hkeys]
          simp [List.zip_cons_cons, List.append_assoc]

/-- C10: a structured body made of literal key/value lines with
pairwise-distinct lowercased keys evaluates to a mapping whose first entry
is the reserved type-tag key bound to the declared type name exactly as
written, followed by one entry per body line keyed by the lowercased form
of the source property identifier, so the keys of the result are the
type-tag key and the lowercased source keys. -/
theorem c10 (fuel : Nat) (env : EvalEnv) (stack : Stack) (ty : String)
    (lines : List StructLine) (v : Value) (stack1 : Stack)
    (hkv : ∀ l ∈ lines, isKeyValueLine l = true)
    (hnd : (lowerKeys lines).Nodup)
    (hnotag : ∀ k ∈ lowerKeys lines, k ≠ LGType)
    (hrun : visitStructuredTemplateBody fuel env stack ty lines = .ok (v, stack1)) :
    ∃ vals : List Value, vals.length = lines.length
      ∧ v = Value.obj ((LGType, Value.str ty) :: (lowerKeys lines).zip vals)
      ∧ ((LGType, Value.str ty) :: (lowerKeys lines).zip vals).map Prod.fst =
          LGType :: lowerKeys lines := by
  cases fuel with
  | zero => simp [visitStructuredTemplateBody] at hrun
  | succ f =>
    simp only [visitStructuredTemplateBody] at hrun
    have hseed : jsSet [] LGType (Value.str ty) = [(LGType, Value.str ty)] := rfl
    rw [hseed] at hrun
    have hdisj : ∀ k ∈ lowerKeys lines, lookupScope [(LGType, Value.str ty)] k = none := by
      intro k hk
      have hne2 : ¬ (LGType = k) := fun hc => (hnotag k hk) hc.symm
      simp [lookupScope, hne2]
    obtain ⟨vals, hlen, hv⟩ :=
      structuredBodyLines_allKV env ty lines f stack [(LGType, Value.str ty)] v stack1
        hkv hnd hdisj hrun
    refine ⟨vals, hlen, by simpa using hv, ?_⟩
    have hkeylen : (lowerKeys lines).length ≤ vals.length := by
      rw [hlen]
      exact le_trans (List.length_filterMap_le _ _) (le_refl _)
    simp [List.map_fst_zip _ _ hkeylen]

/-- C10 witness: the structured template with the uppercase source key
Title stores its value under title while the type tag keeps MyCard. -/
theorem c10_witness :
    ∃ vals : List Value,
      vals.length = ([StructLine.keyValueLine "Title" [StructItem.segs [Segment.text "hello"]]] : List StructLine).length
      ∧ Value.obj [("lgType", Value.str "MyCard"), ("title", Value.str "hello")] =
          Value.obj ((LGType, Value.str "MyCard") ::
            (lowerKeys [StructLine.keyValueLine "Title" [StructItem.segs [Segment.text "hello"]]]).zip vals)
      ∧ ((LGType, Value.str "MyCard") ::
            (lowerKeys [StructLine.keyValueLine "Title" [StructItem.segs [Segment.text "hello"]]]).zip vals).map Prod.fst =
          LGType :: lowerKeys [StructLine.keyValueLine "Title" [StructItem.segs [Segment.text "hello"]]] :=
  c10 50 envUpper [] "MyCard"
    [StructLine.keyValueLine "Title" [StructItem.segs [Segment.text "hello"]]]
    (Value.obj [("lgType", Value.str "MyCard"), ("title", Value.str "hello")]) []
    (by decide) (by decide) (by decide) rfl

/-- The case-scanning loop of the source, entered past the SWITCH node at
a positive index, agrees with the specification-level first-match scan on
well-formed case lists. -/
theorem switchCaseRules_spec (env : EvalEnv) (s : String) :
    ∀ (cases : List SwitchRule) (fuel : Nat) (stack : Stack) (k : Nat),
    wellFormedCases cases = true →
    switchCaseRules fuel env stack cases (k + 1) (k + 1 + cases.length) s =
      specSwitchCases fuel env stack cases s := by
  intro cases
  induction cases with
  | nil =>
    intro fuel stack k _
    cases fuel with
    | zero => simp [switchCaseRules, specSwitchCases]
    | succ f => simp [switchCaseRules, specSwitchCases]
  | cons c rest ih =>
    intro fuel stack k hwf
    cases fuel with
    | zero => simp [switchCaseRules, specSwitchCases]
    | succ f =>
      rw [wellFormedCases] at hwf
      rw [switchCaseRules.eq_def, specSwitchCases.eq_def]
      dsimp only
      cases hcs : c.stat with
      | defaultStat =>
        rw [hcs] at hwf
        dsimp only at hwf
        cases rest with
        | nil =>
          rw [if_neg (by omega : ¬ (k + 1 = 0)),
            if_pos
              (by
                simp only [isDefaultStat, Bool.and_true, decide_eq_true_eq,
                  List.length_cons, List.length_nil]
                omega :
                (decide (k + 1 = k + 1 + ([c] : List SwitchRule).length - 1)
                  && isDefaultStat SwitchStat.defaultStat) = true)]
          rfl
        | cons c2 rs => simp [List.isEmpty] at hwf
      | switchStat e =>
        rw [hcs] at hwf
        dsimp only at hwf
        simp at hwf
      | caseStat e =>
        rw [hcs] at hwf
        dsimp only at hwf
        rw [if_neg (by omega : ¬ (k + 1 = 0)),
          if_neg (by simp [isDefaultStat] : ¬ ((decide (k + 1 = k + 1 + (c :: rest).length - 1)
            && isDefaultStat (SwitchStat.caseStat e)) = true))]
        simp only [statExpr]
        cases hev : evalExpression f env stack e (some (exprText e)) ("Case " ++ exprText e ++ ": ") with
        | error es => rfl
        | ok pr =>
          obtain ⟨v, stack1⟩ := pr
          dsimp only
          cases hjs : jsToString v with
          | error err => rfl
          | ok cs =>
            dsimp only
            by_cases hmatch : s = cs
            · rw [if_pos hmatch, if_pos hmatch]
            · rw [if_neg hmatch, if_neg hmatch]
              have harith : k + 1 + (c :: rest).length = k + 1 + 1 + rest.length := by
                simp [List.length_cons]
                omega
              rw [harith]
              exact ih f stack1 (k + 1) hwf

/-- C6: a switch body evaluates the switch expression exactly once and
stringifies it, then scans the cases in source order with exact string
equality, the first match winning; a DEFAULT rule is honored only in the
last position when nothing matched earlier; with no match and no DEFAULT
the result is undefined.  Stated as the equality of the source scan with
the specification-level scan specSwitchCases on the once-computed switch
string. -/
theorem c6 (fuel : Nat) (env : EvalEnv) (stack : Stack) (swRule : SwitchRule)
    (cases : List SwitchRule) (swExpr : Expr)
    (hsw : statExpr swRule.stat = some swExpr)
    (hwf : wellFormedCases cases = true) :
    visitSwitchCaseBody (fuel + 2) env stack (swRule :: cases) =
      (match evalExpression (fuel + 1) env stack swExpr (some (exprText swExpr))
          ("Switch " ++ exprText swExpr ++ ": ") with
       | .error es => .error es
       | .ok (v, stack1) =>
         match jsToString v with
         | .error err => .error (err, stack1)
         | .ok s => specSwitchCases fuel env stack1 cases s) := by
  simp only [visitSwitchCaseBody, hsw]
  cases hev : evalExpression (fuel + 1) env stack swExpr (some (exprText swExpr))
      ("Switch " ++ exprText swExpr ++ ": ") with
  | error es => rfl
  | ok pr =>
    obtain ⟨v, stack1⟩ := pr
    dsimp only
    cases hjs : jsToString v with
    | error err => rfl
    | ok s =>
      dsimp only
      show switchCaseRules (fuel + 1) env stack1 (swRule :: cases) 0 (swRule :: cases).length s =
        specSwitchCases fuel env stack1 cases s
      rw [switchCaseRules]
      simp only [if_pos rfl]
      have hlen : (swRule :: cases).length = 0 + 1 + cases.length := by
        simp [List.length_cons]
        omega
      rw [hlen]
      exact switchCaseRules_spec env s cases fuel stack1 0 hwf

/-- C6 witness: the equivalence instantiated on a concrete switch with two
cases and a default. -/
theorem c6_witness :
    statExpr (SwitchStat.switchStat (Expr.var "x")) = some (Expr.var "x")
    ∧ wellFormedCases rulesSwitch.tail = true
    ∧ visitSwitchCaseBody (8 + 2) envSwitch [⟨"w", ⟨[("x", Value.str "2")], none⟩, []⟩] rulesSwitch =
        (match evalExpression (8 + 1) envSwitch [⟨"w", ⟨[("x", Value.str "2")], none⟩, []⟩] (Expr.var "x")
            (some (exprText (Expr.var "x"))) ("Switch " ++ exprText (Expr.var "x") ++ ": ") with
         | .error es => .error es
         | .ok (v, stack1) =>
           match jsToString v with
           | .error err => .error (err, stack1)
           | .ok s => specSwitchCases 8 envSwitch stack1 rulesSwitch.tail s) :=
  ⟨rfl, by decide,
   c6 8 envSwitch [⟨"w", ⟨[("x", Value.str "2")], none⟩, []⟩]
     ⟨SwitchStat.switchStat (Expr.var "x"), none⟩ rulesSwitch.tail (Expr.var "x") rfl (by decide)⟩

/-- memoExt is reflexive. -/
theorem memoExt_refl (s : Stack) : memoExt s s := by
  cases s with
  | nil => simp [memoExt]
  | cons f r => exact ⟨rfl, rfl, rfl⟩

/-- memoExt is transitive. -/
theorem memoExt_trans {s1 s2 s3 : Stack} (h1 : memoExt s1 s2) (h2 : memoExt s2 s3) :
    memoExt s1 s3 := by
  cases s1 with
  | nil =>
    cases s2 with
    | nil => exact h2
    | cons f2 r2 => exact absurd h1 (by simp [memoExt])
  | cons f r =>
    cases s2 with
    | nil => exact absurd h1 (by simp [memoExt])
    | cons f2 r2 =>
      cases s3 with
      | nil => exact absurd h2 (by simp [memoExt])
      | cons f3 r3 =>
        obtain ⟨hn1, hs1, hr1⟩ := h1
        obtain ⟨hn2, hs2, hr2⟩ := h2
        exact ⟨hn2.trans hn1, hs2.trans hs1, hr2.trans hr1⟩

/-- Structure of memoExt over a pushed frame: the exit stack is that frame
(with a possibly different memoization map) over exactly the entry tail. -/
theorem memoExt_cons {a : EvaluationTarget} {l s1 : Stack} (h : memoExt (a :: l) s1) :
    ∃ f1 : EvaluationTarget, s1 = f1 :: l ∧ f1.templateName = a.templateName ∧ f1.scope = a.scope := by
  cases s1 with
  | nil => exact absurd h (by simp [memoExt])
  | cons f1 r1 =>
    obtain ⟨hn, hsc, hr⟩ := h
    exact ⟨f1, by rw [hr], hn, hsc⟩

/-- In strict mode every evaluator function restores the evaluation-target
stack on success: the exit stack is the entry stack with, at most, a
changed memoization map on the top frame.  Stated simultaneously for the
whole mutual evaluator and proved by induction on fuel (errors are never
swallowed in strict mode, so every success path is built from restored
sub-evaluations). -/
theorem strictStackRestore (env : EvalEnv) (hs : env.lgOptions.strictMode.getD false = true) :
    ∀ fuel : Nat,
    (∀ stack name scope v s1,
      evaluateTemplate fuel env stack name scope = .ok (v, s1) → memoExt stack s1)
    ∧ (∀ stack body v s1, visit fuel env stack body = .ok (v, s1) → memoExt stack s1)
    ∧ (∀ stack alts v s1,
      visitNormalTemplateBody fuel env stack alts = .ok (v, s1) → memoExt stack s1)
    ∧ (∀ stack ts v s1,
      visitNormalTemplateString fuel env stack ts = .ok (v, s1) → memoExt stack s1)
    ∧ (∀ stack nodes ep vs s1,
      templateStringNodes fuel env stack nodes ep = .ok (vs, s1) → memoExt stack s1)
    ∧ (∀ stack branches v s1,
      visitIfElseBody fuel env stack branches = .ok (v, s1) → memoExt stack s1)
    ∧ (∀ stack branches v s1,
      ifConditionRules fuel env stack branches = .ok (v, s1) → memoExt stack s1)
    ∧ (∀ stack c v s1, evalCondition fuel env stack c = .ok (v, s1) → memoExt stack s1)
    ∧ (∀ stack e ep v s1,
      evalExpressionInCondition fuel env stack e ep = .ok (v, s1) → memoExt stack s1)
    ∧ (∀ stack e ctx ep v s1,
      evalExpression fuel env stack e ctx ep = .ok (v, s1) → memoExt stack s1)
    ∧ (∀ stack scope e s1 v,
      evalByAdaptiveExpression fuel env stack scope e = (s1, .ok v) → memoExt stack s1)
    ∧ (∀ stack scope args s1 vs,
      evalArgsList fuel env stack scope args = (s1, .ok vs) → memoExt stack s1)
    ∧ (∀ stack rules v s1,
      visitSwitchCaseBody fuel env stack rules = .ok (v, s1) → memoExt stack s1)
    ∧ (∀ stack rules idx len sw v s1,
      switchCaseRules fuel env stack rules idx len sw = .ok (v, s1) → memoExt stack s1)
    ∧ (∀ stack ty lines v s1,
      visitStructuredTemplateBody fuel env stack ty lines = .ok (v, s1) → memoExt stack s1)
    ∧ (∀ stack ty lines res v s1,
      structuredBodyLines fuel env stack ty lines res = .ok (v, s1) → memoExt stack s1)
    ∧ (∀ stack key values v s1,
      visitStructureValue fuel env stack key values = .ok (v, s1) → memoExt stack s1)
    ∧ (∀ stack key values vs s1,
      keyValueStructureValues fuel env stack key values = .ok (vs, s1) → memoExt stack s1)
    ∧ (∀ stack key nodes acc sv s1,
      structSegNodes fuel env stack key nodes acc = .ok (sv, s1) → memoExt stack s1) := by
  intro fuel
  induction fuel with
  | zero =>
    exact ⟨fun stack name scope v s1 h => by simp [evaluateTemplate] at h,
      fun stack body v s1 h => by simp [visit] at h,
      fun stack alts v s1 h => by simp [visitNormalTemplateBody] at h,
      fun stack ts v s1 h => by simp [visitNormalTemplateString] at h,
      fun stack nodes ep vs s1 h => by simp [templateStringNodes] at h,
      fun stack branches v s1 h => by simp [visitIfElseBody] at h,
      fun stack branches v s1 h => by simp [ifConditionRules] at h,
      fun stack c v s1 h => by simp [evalCondition] at h,
      fun stack e ep v s1 h => by simp [evalExpressionInCondition] at h,
      fun stack e ctx ep v s1 h => by simp [evalExpression] at h,
      fun stack scope e s1 v h => by simp [evalByAdaptiveExpression] at h,
      fun stack scope args s1 vs h => by simp [evalArgsList] at h,
      fun stack rules v s1 h => by simp [visitSwitchCaseBody] at h,
      fun stack rules idx len sw v s1 h => by simp [switchCaseRules] at h,
      fun stack ty lines v s1 h => by simp [visitStructuredTemplateBody] at h,
      fun stack ty lines res v s1 h => by simp [structuredBodyLines] at h,
      fun stack key values v s1 h => by simp [visitStructureValue] at h,
      fun stack key values vs s1 h => by simp [keyValueStructureValues] at h,
      fun stack key nodes acc sv s1 h => by simp [structSegNodes] at h⟩
  | succ f ih =>
    obtain ⟨ihET, ihV, ihVNB, ihVNS, ihTSN, ihIEB, ihICR, ihEC, ihEEIC, ihEE, ihEBA,
      ihEAL, ihVSB, ihSCR, ihVST, ihSBL, ihVSV, ihKVS, ihSSN⟩ := ih
    have hTSN : ∀ stack nodes ep vs s1,
        templateStringNodes (f + 1) env stack nodes ep = .ok (vs, s1) → memoExt stack s1 := by
      intro stack nodes ep vs s1 h
      rw [templateStringNodes.eq_def] at h
      cases nodes with
      | nil =>
        dsimp only at h
        cases h
        exact memoExt_refl _
      | cons node rest =>
        cases node with
        | text s0 =>
          dsimp only at h
          cases hrec : templateStringNodes f env stack rest ep with
          | error es => rw [hrec] at h; simp at h
          | ok pr =>
            obtain ⟨vs0, st1⟩ := pr
            rw [hrec] at h
            dsimp only at h
            cases h
            exact ihTSN _ _ _ _ _ hrec
        | escape s0 =>
          dsimp only at h
          cases hrec : templateStringNodes f env stack rest ep with
          | error es => rw [hrec] at h; simp at h
          | ok pr =>
            obtain ⟨vs0, st1⟩ := pr
            rw [hrec] at h
            dsimp only at h
            cases h
            exact ihTSN _ _ _ _ _ hrec
        | exprSeg e =>
          dsimp only at h
          cases hee : evalExpression f env stack e (some (exprText e)) ep with
          | error es => rw [hee] at h; simp at h
          | ok pr =>
            obtain ⟨v0, st1⟩ := pr
            rw [hee] at h
            dsimp only at h
            cases hrec : templateStringNodes f env st1 rest ep with
            | error es => rw [hrec] at h; simp at h
            | ok pr2 =>
              obtain ⟨vs0, st2⟩ := pr2
              rw [hrec] at h
              dsimp only at h
              cases h
              exact memoExt_trans (ihEE _ _ _ _ _ _ hee) (ihTSN _ _ _ _ _ hrec)
    have hVNS : ∀ stack ts v s1,
        visitNormalTemplateString (f + 1) env stack ts = .ok (v, s1) → memoExt stack s1 := by
      intro stack ts v s1 h
      rw [visitNormalTemplateString.eq_def] at h
      dsimp only at h
      cases hrec : templateStringNodes f env stack ts "" with
      | error es => rw [hrec] at h; simp at h
      | ok pr =>
        obtain ⟨vs0, st1⟩ := pr
        rw [hrec] at h
        have hme := ihTSN _ _ _ _ _ hrec
        dsimp only at h
        split at h <;> (cases h; exact hme)
    have hVNB : ∀ stack alts v s1,
        visitNormalTemplateBody (f + 1) env stack alts = .ok (v, s1) → memoExt stack s1 := by
      intro stack alts v s1 h
      rw [visitNormalTemplateBody.eq_def] at h
      dsimp only at h
      cases hget : alts.get? (env.choose alts.length) with
      | none => rw [hget] at h; simp at h
      | some ts =>
        rw [hget] at h
        dsimp only at h
        exact ihVNS _ _ _ _ h
    have hEBA : ∀ stack scope e s1 v,
        evalByAdaptiveExpression (f + 1) env stack scope e = (s1, .ok v) → memoExt stack s1 := by
      intro stack scope e s1 v h
      rw [evalByAdaptiveExpression.eq_def] at h
      cases e with
      | lit v0 =>
        dsimp only at h
        cases h
        exact memoExt_refl _
      | var nm =>
        dsimp only at h
        split at h <;> (cases h; exact memoExt_refl _)
      | call nm args =>
        dsimp only at h
        cases hargs : evalArgsList f env stack scope args with
        | mk st1 res =>
          rw [hargs] at h
          cases res with
          | error err => simp at h
          | ok vs =>
            dsimp only at h
            have hme1 := ihEAL stack scope args st1 vs hargs
            cases hp : parseTemplateName (stripLgDot nm) with
            | error err => rw [hp] at h; simp at h
            | ok pr =>
              obtain ⟨re0, pureName⟩ := pr
              rw [hp] at h
              dsimp only at h
              cases hkb : keyByName env.templates pureName with
              | some tmpl =>
                rw [hkb] at h
                rw [if_pos (show (some tmpl).isSome = true from rfl)] at h
                cases hcs : constructScope env st1 (stripLgDot nm) vs with
                | error err => rw [hcs] at h; simp at h
                | ok newScope =>
                  rw [hcs] at h
                  dsimp only at h
                  cases het : evaluateTemplate f env st1 (stripLgDot nm) newScope with
                  | error pr2 =>
                    obtain ⟨err, st2⟩ := pr2
                    rw [het] at h
                    simp at h
                  | ok pr2 =>
                    obtain ⟨v0, st2⟩ := pr2
                    rw [het] at h
                    dsimp only at h
                    cases h
                    exact memoExt_trans hme1 (ihET _ _ _ _ _ het)
              | none =>
                rw [hkb] at h
                rw [if_neg (by simp)] at h
                by_cases hnt : stripLgDot nm = "template"
                · rw [if_pos hnt] at h
                  cases vs with
                  | nil => simp at h
                  | cons v0 restArgs =>
                    cases v0 with
                    | str tName =>
                      dsimp only at h
                      cases hcs : constructScope env st1 tName restArgs with
                      | error err => rw [hcs] at h; simp at h
                      | ok newScope =>
                        rw [hcs] at h
                        dsimp only at h
                        cases het : evaluateTemplate f env st1 tName newScope with
                        | error pr2 =>
                          obtain ⟨err, st2⟩ := pr2
                          rw [het] at h
                          simp at h
                        | ok pr2 =>
                          obtain ⟨v1, st2⟩ := pr2
                          rw [het] at h
                          dsimp only at h
                          cases h
                          exact memoExt_trans hme1 (ihET _ _ _ _ _ het)
                    | num n => simp at h
                    | boolV b => simp at h
                    | nullV => simp at h
                    | undef => simp at h
                    | obj fields => simp at h
                    | arr items => simp at h
                · rw [if_neg hnt] at h
                  by_cases hit : stripLgDot nm = "isTemplate"
                  · rw [if_pos hit] at h
                    cases vs with
                    | nil => simp at h
                    | cons v0 restArgs =>
                      dsimp only at h
                      cases hjs : jsToString v0 with
                      | error err => rw [hjs] at h; simp at h
                      | ok s0 =>
                        rw [hjs] at h
                        dsimp only at h
                        cases h
                        exact hme1
                  · rw [if_neg hit] at h
                    simp at h
    have hEAL : ∀ stack scope args s1 vs,
        evalArgsList (f + 1) env stack scope args = (s1, .ok vs) → memoExt stack s1 := by
      intro stack scope args s1 vs h
      rw [evalArgsList.eq_def] at h
      cases args with
      | nil =>
        dsimp only at h
        cases h
        exact memoExt_refl _
      | cons e rest =>
        dsimp only at h
        cases heba : evalByAdaptiveExpression f env stack scope e with
        | mk st1 res =>
          rw [heba] at h
          cases res with
          | error err => simp at h
          | ok v0 =>
            dsimp only at h
            cases hrec : evalArgsList f env st1 scope rest with
            | mk st2 res2 =>
              rw [hrec] at h
              cases res2 with
              | error err => simp at h
              | ok vs0 =>
                dsimp only at h
                cases h
                exact memoExt_trans (ihEBA _ _ _ _ _ heba) (ihEAL _ _ _ _ _ hrec)
    have hEE : ∀ stack e ctx ep v s1,
        evalExpression (f + 1) env stack e ctx ep = .ok (v, s1) → memoExt stack s1 := by
      intro stack e ctx ep v s1 h
      rw [evalExpression.eq_def] at h
      cases stack with
      | nil => simp at h
      | cons cur0 rest0 =>
        dsimp only at h
        cases heba : evalByAdaptiveExpression f env (cur0 :: rest0) cur0.scope e with
        | mk st1 res =>
          rw [heba] at h
          cases res with
          | error err => cases st1 <;> simp at h
          | ok v0 =>
            dsimp only at h
            cases v0 with
            | undef =>
              rw [hs] at h
              dsimp only at h
              cases st1 <;> simp at h
            | str s0 => cases h; exact ihEBA _ _ _ _ _ heba
            | num n => cases h; exact ihEBA _ _ _ _ _ heba
            | boolV b => cases h; exact ihEBA _ _ _ _ _ heba
            | nullV => cases h; exact ihEBA _ _ _ _ _ heba
            | obj fields => cases h; exact ihEBA _ _ _ _ _ heba
            | arr items => cases h; exact ihEBA _ _ _ _ _ heba
    have hEEIC : ∀ stack e ep v s1,
        evalExpressionInCondition (f + 1) env stack e ep = .ok (v, s1) → memoExt stack s1 := by
      intro stack e ep v s1 h
      rw [evalExpressionInCondition.eq_def] at h
      cases stack with
      | nil => simp at h
      | cons cur0 rest0 =>
        dsimp only at h
        cases heba : evalByAdaptiveExpression f env (cur0 :: rest0) cur0.scope e with
        | mk st1 res =>
          rw [heba] at h
          dsimp only at h
          cases res with
          | error err =>
            dsimp only at h
            rw [hs] at h
            cases st1 <;> simp at h
          | ok v0 =>
            dsimp only at h
            rw [hs] at h
            cases hf : isFalsy v0 with
            | true =>
              rw [hf] at h
              cases st1 <;> simp at h
            | false =>
              rw [hf] at h
              simp only [Bool.and_false, Bool.false_eq_true, if_false] at h
              cases h
              exact ihEBA _ _ _ _ _ heba
    have hEC : ∀ stack c v s1,
        evalCondition (f + 1) env stack c = .ok (v, s1) → memoExt stack s1 := by
      intro stack c v s1 h
      rw [evalCondition.eq_def] at h
      cases c with
      | none =>
        dsimp only at h
        cases h
        exact memoExt_refl _
      | some e =>
        dsimp only at h
        exact ihEEIC _ _ _ _ _ h
    have hICR : ∀ stack branches v s1,
        ifConditionRules (f + 1) env stack branches = .ok (v, s1) → memoExt stack s1 := by
      intro stack branches v s1 h
      rw [ifConditionRules.eq_def] at h
      cases branches with
      | nil =>
        dsimp only at h
        cases h
        exact memoExt_refl _
      | cons b rest =>
        dsimp only at h
        cases hec : evalCondition f env stack b.cond with
        | error es => rw [hec] at h; simp at h
        | ok pr =>
          obtain ⟨cond, st1⟩ := pr
          rw [hec] at h
          have hme1 := ihEC stack b.cond cond st1 hec
          cases cond with
          | true =>
            cases hb : b.body with
            | some nb =>
              rw [hb] at h
              dsimp only at h
              exact memoExt_trans hme1 (ihVNB _ _ _ _ h)
            | none =>
              rw [hb] at h
              dsimp only at h
              exact memoExt_trans hme1 (ihICR _ _ _ _ h)
          | false =>
            dsimp only at h
            exact memoExt_trans hme1 (ihICR _ _ _ _ h)
    have hIEB : ∀ stack branches v s1,
        visitIfElseBody (f + 1) env stack branches = .ok (v, s1) → memoExt stack s1 := by
      intro stack branches v s1 h
      rw [visitIfElseBody.eq_def] at h
      dsimp only at h
      exact ihICR stack branches v s1 h
    have hSCR : ∀ stack rules idx len sw v s1,
        switchCaseRules (f + 1) env stack rules idx len sw = .ok (v, s1) → memoExt stack s1 := by
      intro stack rules idx len sw v s1 h
      rw [switchCaseRules.eq_def] at h
      cases rules with
      | nil =>
        dsimp only at h
        cases h
        exact memoExt_refl _
      | cons caseNode rest =>
        dsimp only at h
        by_cases hidx : idx = 0
        · rw [if_pos hidx] at h
          exact ihSCR stack rest (idx + 1) len sw v s1 h
        · rw [if_neg hidx] at h
          cases hcond : (decide (idx = len - 1) && isDefaultStat caseNode.stat) with
          | true =>
            rw [hcond] at h
            rw [if_pos rfl] at h
            cases hb : caseNode.body with
            | some defaultBody =>
              rw [hb] at h
              dsimp only at h
              exact ihVNB stack defaultBody v s1 h
            | none =>
              rw [hb] at h
              dsimp only at h
              cases h
              exact memoExt_refl _
          | false =>
            rw [hcond] at h
            rw [if_neg (by simp)] at h
            cases hse : statExpr caseNode.stat with
            | none => rw [hse] at h; simp at h
            | some caseExpr =>
              rw [hse] at h
              dsimp only at h
              cases hev : evalExpression f env stack caseExpr (some (exprText caseExpr))
                  ("Case " ++ exprText caseExpr ++ ": ") with
              | error es => rw [hev] at h; simp at h
              | ok pr =>
                obtain ⟨v0, st1⟩ := pr
                rw [hev] at h
                dsimp only at h
                have hme1 := ihEE stack caseExpr _ _ v0 st1 hev
                cases hjs : jsToString v0 with
                | error err => rw [hjs] at h; simp at h
                | ok caseStr =>
                  rw [hjs] at h
                  dsimp only at h
                  by_cases hmatch : sw = caseStr
                  · rw [if_pos hmatch] at h
                    cases hb : caseNode.body with
                    | some b =>
                      rw [hb] at h
                      dsimp only at h
                      exact memoExt_trans hme1 (ihVNB st1 b v s1 h)
                    | none => rw [hb] at h; simp at h
                  · rw [if_neg hmatch] at h
                    exact memoExt_trans hme1 (ihSCR st1 rest (idx + 1) len sw v s1 h)
    have hVSB : ∀ stack rules v s1,
        visitSwitchCaseBody (f + 1) env stack rules = .ok (v, s1) → memoExt stack s1 := by
      intro stack rules v s1 h
      rw [visitSwitchCaseBody.eq_def] at h
      cases rules with
      | nil => simp at h
      | cons switchNode rest =>
        dsimp only at h
        cases hse : statExpr switchNode.stat with
        | none => rw [hse] at h; simp at h
        | some swExpr =>
          rw [hse] at h
          dsimp only at h
          cases hev : evalExpression f env stack swExpr (some (exprText swExpr))
              ("Switch " ++ exprText swExpr ++ ": ") with
          | error es => rw [hev] at h; simp at h
          | ok pr =>
            obtain ⟨v0, st1⟩ := pr
            rw [hev] at h
            dsimp only at h
            have hme1 := ihEE stack swExpr _ _ v0 st1 hev
            cases hjs : jsToString v0 with
            | error err => rw [hjs] at h; simp at h
            | ok sw =>
              rw [hjs] at h
              dsimp only at h
              exact memoExt_trans hme1
                (ihSCR st1 (switchNode :: rest) 0 (switchNode :: rest).length sw v s1 h)
    have hSSN : ∀ stack key nodes acc sv s1,
        structSegNodes (f + 1) env stack key nodes acc = .ok (sv, s1) → memoExt stack s1 := by
      intro stack key nodes acc sv s1 h
      rw [structSegNodes.eq_def] at h
      cases nodes with
      | nil =>
        dsimp only at h
        cases h
        exact memoExt_refl _
      | cons node rest =>
        cases node with
        | escape s0 =>
          dsimp only at h
          exact ihSSN stack key rest _ sv s1 h
        | text s0 =>
          dsimp only at h
          exact ihSSN stack key rest _ sv s1 h
        | exprSeg e =>
          dsimp only at h
          cases hee : evalExpression f env stack e (some (exprText e))
              ("Property " ++ key ++ ":") with
          | error es => rw [hee] at h; simp at h
          | ok pr =>
            obtain ⟨v0, st1⟩ := pr
            rw [hee] at h
            dsimp only at h
            exact memoExt_trans (ihEE stack e _ _ v0 st1 hee)
              (ihSSN st1 key rest _ sv s1 h)
    have hKVS : ∀ stack key values vs s1,
        keyValueStructureValues (f + 1) env stack key values = .ok (vs, s1) → memoExt stack s1 := by
      intro stack key values vs s1 h
      rw [keyValueStructureValues.eq_def] at h
      cases values with
      | nil =>
        dsimp only at h
        cases h
        exact memoExt_refl _
      | cons item rest =>
        cases item with
        | pureExpr e =>
          dsimp only at h
          cases hee : evalExpression f env stack e (some (exprText e)) "" with
          | error es => rw [hee] at h; simp at h
          | ok pr =>
            obtain ⟨v0, st1⟩ := pr
            rw [hee] at h
            dsimp only at h
            cases hrec : keyValueStructureValues f env st1 key rest with
            | error es => rw [hrec] at h; simp at h
            | ok pr2 =>
              obtain ⟨vs0, st2⟩ := pr2
              rw [hrec] at h
              dsimp only at h
              cases h
              exact memoExt_trans (ihEE _ _ _ _ _ _ hee) (ihKVS _ _ _ _ _ hrec)
        | segs nodes =>
          dsimp only at h
          cases hsn : structSegNodes f env stack key nodes "" with
          | error es => rw [hsn] at h; simp at h
          | ok pr =>
            obtain ⟨s0, st1⟩ := pr
            rw [hsn] at h
            dsimp only at h
            cases hrec : keyValueStructureValues f env st1 key rest with
            | error es => rw [hrec] at h; simp at h
            | ok pr2 =>
              obtain ⟨vs0, st2⟩ := pr2
              rw [hrec] at h
              dsimp only at h
              cases h
              exact memoExt_trans (ihSSN _ _ _ _ _ _ hsn) (ihKVS _ _ _ _ _ hrec)
    have hVSV : ∀ stack key values v s1,
        visitStructureValue (f + 1) env stack key values = .ok (v, s1) → memoExt stack s1 := by
      intro stack key values v s1 h
      rw [visitStructureValue.eq_def] at h
      dsimp only at h
      cases hkv : keyValueStructureValues f env stack key values with
      | error es => rw [hkv] at h; simp at h
      | ok pr =>
        obtain ⟨result, st1⟩ := pr
        rw [hkv] at h
        have hme := ihKVS stack key values result st1 hkv
        cases result with
        | nil => dsimp only at h; cases h; exact hme
        | cons v0 rest0 =>
          cases rest0 with
          | nil => dsimp only at h; cases h; exact hme
          | cons v1 rest1 => dsimp only at h; cases h; exact hme
    have hSBL : ∀ stack ty lines res v s1,
        structuredBodyLines (f + 1) env stack ty lines res = .ok (v, s1) → memoExt stack s1 := by
      intro stack ty lines res v s1 h
      rw [structuredBodyLines.eq_def] at h
      cases lines with
      | nil =>
        dsimp only at h
        cases h
        exact memoExt_refl _
      | cons line rest =>
        cases line with
        | keyValueLine key values =>
          dsimp only at h
          cases hkv : visitStructureValue f env stack key values with
          | error es => rw [hkv] at h; simp at h
          | ok pr =>
            obtain ⟨value, st1⟩ := pr
            rw [hkv] at h
            dsimp only at h
            exact memoExt_trans (ihVSV stack key values value st1 hkv)
              (ihSBL st1 ty rest _ v s1 h)
        | objectLine e =>
          dsimp only at h
          cases hee : evalExpression f env stack e (some (exprText e)) "" with
          | error es => rw [hee] at h; simp at h
          | ok pr =>
            obtain ⟨po, st1⟩ := pr
            rw [hee] at h
            dsimp only at h
            have hme1 := ihEE stack e _ _ po st1 hee
            cases po with
            | nullV => simp at h
            | obj fields =>
              dsimp only at h
              cases hlk : lookupScope fields LGType with
              | some tagVal =>
                rw [hlk] at h
                dsimp only at h
                cases hjs : jsToString tagVal with
                | error err => rw [hjs] at h; simp at h
                | ok tagStr =>
                  rw [hjs] at h
                  dsimp only at h
                  by_cases htag : tagStr = ty
                  · rw [if_pos htag] at h
                    exact memoExt_trans hme1 (ihSBL st1 ty rest _ v s1 h)
                  · rw [if_neg htag] at h
                    exact memoExt_trans hme1 (ihSBL st1 ty rest _ v s1 h)
              | none =>
                rw [hlk] at h
                dsimp only at h
                exact memoExt_trans hme1 (ihSBL st1 ty rest _ v s1 h)
            | str s0 => exact memoExt_trans hme1 (ihSBL st1 ty rest _ v s1 h)
            | num n => exact memoExt_trans hme1 (ihSBL st1 ty rest _ v s1 h)
            | boolV b => exact memoExt_trans hme1 (ihSBL st1 ty rest _ v s1 h)
            | undef => exact memoExt_trans hme1 (ihSBL st1 ty rest _ v s1 h)
            | arr items => exact memoExt_trans hme1 (ihSBL st1 ty rest _ v s1 h)
    have hVST : ∀ stack ty lines v s1,
        visitStructuredTemplateBody (f + 1) env stack ty lines = .ok (v, s1) → memoExt stack s1 := by
      intro stack ty lines v s1 h
      rw [visitStructuredTemplateBody.eq_def] at h
      dsimp only at h
      exact ihSBL stack ty lines _ v s1 h
    have hV : ∀ stack body v s1,
        visit (f + 1) env stack body = .ok (v, s1) → memoExt stack s1 := by
      intro stack body v s1 h
      rw [visit.eq_def] at h
      cases body with
      | normal alts => dsimp only at h; exact ihVNB stack alts v s1 h
      | ifElse branches => dsimp only at h; exact ihIEB stack branches v s1 h
      | switchCase rules => dsimp only at h; exact ihVSB stack rules v s1 h
      | structured ty lines => dsimp only at h; exact ihVST stack ty lines v s1 h
    have hET : ∀ stack name scope v s1,
        evaluateTemplate (f + 1) env stack name scope = .ok (v, s1) → memoExt stack s1 := by
      intro stack name scope v s1 h
      rw [evaluateTemplate.eq_def] at h
      cases hp : parseTemplateName name with
      | error e0 => rw [hp] at h; simp at h
      | ok pr =>
        obtain ⟨re, pureName⟩ := pr
        rw [hp] at h
        dsimp only at h
        cases hkb : keyByName env.templates pureName with
        | none => rw [hkb] at h; simp at h
        | some tmpl =>
          rw [hkb] at h
          dsimp only at h
          cases hloop : stack.any (fun u => u.templateName = pureName) with
          | true => rw [hloop] at h; simp at h
          | false =>
            rw [hloop] at h
            rw [if_neg (by simp)] at h
            cases stack with
            | nil =>
              dsimp only at h
              cases hvis : visit f env (⟨pureName, scope, []⟩ :: []) tmpl.templateBody with
              | error es => rw [hvis] at h; simp at h
              | ok pr2 =>
                obtain ⟨r, stack1⟩ := pr2
                rw [hvis] at h
                obtain ⟨t1, hst1, _, _⟩ := memoExt_cons (ihV _ tmpl.templateBody r stack1 hvis)
                subst hst1
                dsimp only at h
                cases h
                simp [memoExt]
            | cons prev rest =>
              dsimp only at h
              cases re with
              | true =>
                rw [if_pos (show (true : Bool) = true from rfl)] at h
                dsimp only at h
                cases hvis : visit f env (⟨pureName, scope, []⟩ :: prev :: rest) tmpl.templateBody with
                | error es => rw [hvis] at h; simp at h
                | ok pr2 =>
                  obtain ⟨r, stack1⟩ := pr2
                  rw [hvis] at h
                  obtain ⟨t1, hst1, _, _⟩ := memoExt_cons (ihV _ tmpl.templateBody r stack1 hvis)
                  subst hst1
                  dsimp only at h
                  cases h
                  exact ⟨rfl, rfl, rfl⟩
              | false =>
                rw [if_neg (by simp)] at h
                cases hlk : lookupScope prev.evaluatedChildren
                    (EvaluationTarget.getId ⟨pureName, scope, []⟩) with
                | some v0 =>
                  rw [hlk] at h
                  dsimp only at h
                  cases h
                  exact memoExt_refl _
                | none =>
                  rw [hlk] at h
                  dsimp only at h
                  cases hvis : visit f env (⟨pureName, scope, []⟩ :: prev :: rest) tmpl.templateBody with
                  | error es => rw [hvis] at h; simp at h
                  | ok pr2 =>
                    obtain ⟨r, stack1⟩ := pr2
                    rw [hvis] at h
                    obtain ⟨t1, hst1, _, _⟩ := memoExt_cons (ihV _ tmpl.templateBody r stack1 hvis)
                    subst hst1
                    dsimp only at h
                    cases h
                    exact ⟨rfl, rfl, rfl⟩
    exact ⟨hET, hV, hVNB, hVNS, hTSN, hIEB, hICR, hEC, hEEIC, hEE, hEBA, hEAL, hVSB,
      hSCR, hVST, hSBL, hVSV, hKVS, hSSN⟩

/-- C5: per-frame memoization of nested template invocations.  First, a
call without the re-execute marker whose (template name, scope
fingerprint) pair is cached in the immediate caller frame returns the
cached value with the stack untouched, independent of the template body
(no re-execution).  Second, in strict mode, a non-cached (or re-execute)
call that completes records its raw result in the immediate caller frame
under that fingerprint, and returns the post-processed result.  Third, a
name carrying the re-execute marker proceeds to execute the body even
though the caller cache holds an entry for the fingerprint: the call
equals the body-executing continuation for every cache content. -/
theorem c5 :
    (∀ (fuel : Nat) (env : EvalEnv) (prev : EvaluationTarget) (rest : Stack)
        (inputName pureName : String) (scope : CustomizedMemory) (v : Value),
      parseTemplateName inputName = .ok (false, pureName) →
      (keyByName env.templates pureName).isSome = true →
      (prev :: rest).any (fun u => u.templateName = pureName) = false →
      lookupScope prev.evaluatedChildren (EvaluationTarget.getId ⟨pureName, scope, []⟩) = some v →
      evaluateTemplate (fuel + 1) env (prev :: rest) inputName scope = .ok (v, prev :: rest))
    ∧ (∀ (fuel : Nat) (env : EvalEnv) (prev : EvaluationTarget) (rest : Stack)
        (inputName pureName : String) (re : Bool) (scope : CustomizedMemory)
        (v : Value) (s1 : Stack),
      env.lgOptions.strictMode.getD false = true →
      parseTemplateName inputName = .ok (re, pureName) →
      (keyByName env.templates pureName).isSome = true →
      (prev :: rest).any (fun u => u.templateName = pureName) = false →
      (re = false →
        lookupScope prev.evaluatedChildren (EvaluationTarget.getId ⟨pureName, scope, []⟩) = none) →
      evaluateTemplate (fuel + 1) env (prev :: rest) inputName scope = .ok (v, s1) →
      ∃ r : Value,
        s1 = (⟨prev.templateName, prev.scope,
          jsSet prev.evaluatedChildren (EvaluationTarget.getId ⟨pureName, scope, []⟩) r⟩ :
            EvaluationTarget) :: rest
        ∧ lookupScope
            (jsSet prev.evaluatedChildren (EvaluationTarget.getId ⟨pureName, scope, []⟩) r)
            (EvaluationTarget.getId ⟨pureName, scope, []⟩) = some r
        ∧ v = lineBreakPostProcess env.lgOptions r)
    ∧ (∀ (fuel : Nat) (env : EvalEnv) (prev : EvaluationTarget) (rest : Stack)
        (inputName pureName : String) (scope : CustomizedMemory) (tmpl : Template),
      parseTemplateName inputName = .ok (true, pureName) →
      keyByName env.templates pureName = some tmpl →
      (prev :: rest).any (fun u => u.templateName = pureName) = false →
      evaluateTemplate (fuel + 1) env (prev :: rest) inputName scope =
        (match visit fuel env ((⟨pureName, scope, []⟩ : EvaluationTarget) :: prev :: rest)
            tmpl.templateBody with
         | .error es => .error es
         | .ok (r, stack1) =>
           .ok (lineBreakPostProcess env.lgOptions r,
             (match (prev :: rest : Stack), stack1 with
              | _ :: _, top :: p :: rest2 =>
                top :: (⟨p.templateName, p.scope,
                  jsSet p.evaluatedChildren
                    (EvaluationTarget.getId ⟨pureName, scope, []⟩) r⟩ : EvaluationTarget) :: rest2
              | _, s => s).tail))) := by
  refine ⟨?_, ?_, ?_⟩
  · intro fuel env prev rest inputName pureName scope v hparse hmap hloop hhit
    obtain ⟨tmpl, hkb⟩ := Option.isSome_iff_exists.mp hmap
    rw [evaluateTemplate.eq_def, hparse]
    dsimp only
    rw [hkb]
    dsimp only
    rw [hloop, if_neg (by simp)]
    rw [if_neg (by simp), hhit]
  · intro fuel env prev rest inputName pureName re scope v s1 hstrict hparse hmap hloop hmiss hrun
    obtain ⟨tmpl, hkb⟩ := Option.isSome_iff_exists.mp hmap
    rw [evaluateTemplate.eq_def, hparse] at hrun
    dsimp only at hrun
    rw [hkb] at hrun
    dsimp only at hrun
    rw [hloop, if_neg (by simp)] at hrun
    cases re with
    | true =>
      rw [if_pos (show (true : Bool) = true from rfl)] at hrun
      dsimp only at hrun
      cases hvis : visit fuel env ((⟨pureName, scope, []⟩ : EvaluationTarget) :: prev :: rest)
          tmpl.templateBody with
      | error es => rw [hvis] at hrun; simp at hrun
      | ok pr =>
        obtain ⟨r, stack1⟩ := pr
        rw [hvis] at hrun
        obtain ⟨t1, hst1, _, _⟩ :=
          memoExt_cons ((strictStackRestore env hstrict fuel).2.1 _ _ _ _ hvis)
        subst hst1
        dsimp only at hrun
        cases hrun
        exact ⟨r, rfl, jsSet_lookup_self _ _ _, rfl⟩
    | false =>
      rw [if_neg (by simp), hmiss rfl] at hrun
      dsimp only at hrun
      cases hvis : visit fuel env ((⟨pureName, scope, []⟩ : EvaluationTarget) :: prev :: rest)
          tmpl.templateBody with
      | error es => rw [hvis] at hrun; simp at hrun
      | ok pr =>
        obtain ⟨r, stack1⟩ := pr
        rw [hvis] at hrun
        obtain ⟨t1, hst1, _, _⟩ :=
          memoExt_cons ((strictStackRestore env hstrict fuel).2.1 _ _ _ _ hvis)
        subst hst1
        dsimp only at hrun
        cases hrun
        exact ⟨r, rfl, jsSet_lookup_self _ _ _, rfl⟩
  · intro fuel env prev rest inputName pureName scope tmpl hparse hkb hloop
    rw [evaluateTemplate.eq_def, hparse]
    dsimp only
    rw [hkb]
    dsimp only
    rw [hloop, if_neg (by simp)]
    rw [if_pos (show (true : Bool) = true from rfl)]
    dsimp only
    cases hvis : visit fuel env ((⟨pureName, scope, []⟩ : EvaluationTarget) :: prev :: rest)
        tmpl.templateBody with
    | error es => rfl
    | ok pr =>
      obtain ⟨r, stack1⟩ := pr
      dsimp only
      cases stack1 with
      | nil => rfl
      | cons top rest1 =>
        cases rest1 with
        | nil => rfl
        | cons p rest2 => rfl

/-- C5 witness: the memoization behavior instantiated on a caller frame
caching the value cached for the fingerprint of template u over the empty
scope: the plain call returns the cached value and leaves the stack
untouched; the re-execute call in strict mode runs the body and records
the fresh result in the caller frame; the re-execute call equals the
body-executing continuation. -/
theorem c5_witness :
    evaluateTemplate (5 + 1) envFresh [callerFrame (Value.str "cached")] "u" scope0 =
      .ok (Value.str "cached", [callerFrame (Value.str "cached")])
    ∧ (∃ r : Value,
        ([(⟨"caller", scope0, [(idFresh, Value.str "fresh")]⟩ : EvaluationTarget)] : Stack) =
          (⟨(callerFrame (Value.str "cached")).templateName, (callerFrame (Value.str "cached")).scope,
            jsSet (callerFrame (Value.str "cached")).evaluatedChildren
              (EvaluationTarget.getId ⟨"u", scope0, []⟩) r⟩ : EvaluationTarget) :: []
        ∧ lookupScope
            (jsSet (callerFrame (Value.str "cached")).evaluatedChildren
              (EvaluationTarget.getId ⟨"u", scope0, []⟩) r)
            (EvaluationTarget.getId ⟨"u", scope0, []⟩) = some r
        ∧ Value.str "fresh" = lineBreakPostProcess envFreshStrict.lgOptions r)
    ∧ evaluateTemplate (5 + 1) envFresh [callerFrame (Value.str "cached")] "u!" scope0 =
        (match visit 5 envFresh ((⟨"u", scope0, []⟩ : EvaluationTarget) :: callerFrame (Value.str "cached") :: [])
            tplFresh.templateBody with
         | .error es => .error es
         | .ok (r, stack1) =>
           .ok (lineBreakPostProcess envFresh.lgOptions r,
             (match (callerFrame (Value.str "cached") :: [] : Stack), stack1 with
              | _ :: _, top :: p :: rest2 =>
                top :: (⟨p.templateName, p.scope,
                  jsSet p.evaluatedChildren
                    (EvaluationTarget.getId ⟨"u", scope0, []⟩) r⟩ : EvaluationTarget) :: rest2
              | _, s => s).tail)) :=
  ⟨c5.1 5 envFresh (callerFrame (Value.str "cached")) [] "u" "u" scope0 (Value.str "cached")
      rfl rfl (by decide) rfl,
   c5.2.1 5 envFreshStrict (callerFrame (Value.str "cached")) [] "u!" "u" true scope0
      (Value.str "fresh") [⟨"caller", scope0, [(idFresh, Value.str "fresh")]⟩]
      rfl rfl rfl (by decide) (fun hc => by cases hc) rfl,
   c5.2.2 5 envFresh (callerFrame (Value.str "cached")) [] "u!" "u" scope0 tplFresh
      rfl rfl (by decide)⟩

end LG


